import Mathlib

/-!
Verification development for the deterministic-screenshots-chromium
repository. The heart of the program is the `VirtualTimeController` class of
`src/index.ts`: it chops a granted virtual-time budget into chunks aligned to
animation-frame boundaries, submits each chunk to the DevTools protocol via
`Emulation.setVirtualTimePolicy`, and reacts to `virtualTimeBudgetExpired`
events. The orchestrator (`run`) drives a capture loop producing numbered
frame files that are finally handed to ffmpeg.

The embedding below models the controller state with exact rationals (the
source works on JavaScript numbers; every quantity the program manipulates —
integer millisecond budgets and the 0.01 ms timestamp nudge — is represented
exactly here), and models each protocol side effect as an explicit event in a
trace. Callbacks are represented by opaque labels of a type parameter `κ`;
invoking a callback is recorded as a trace event carrying its label.
-/

namespace DeterministicScreenshots

/-- JavaScript remainder `a % b` on rationals, as used by the controller:
for the operand signs occurring in the program (`a ≥ 0`, `b > 0`) the
JavaScript remainder equals `a - b * ⌊a / b⌋`. -/
def jsMod (a b : ℚ) : ℚ := a - b * (⌊a / b⌋ : ℚ)

theorem jsMod_nonneg (a : ℚ) {b : ℚ} (hb : 0 < b) : 0 ≤ jsMod a b := by
  have h1 : (⌊a / b⌋ : ℚ) ≤ a / b := Int.floor_le _
  have h2 : b * (⌊a / b⌋ : ℚ) ≤ b * (a / b) := by
    exact mul_le_mul_of_nonneg_left h1 hb.le
  have h3 : b * (a / b) = a := by
    field_simp
  unfold jsMod
  linarith

theorem jsMod_lt (a : ℚ) {b : ℚ} (hb : 0 < b) : jsMod a b < b := by
  have h1 : a / b < (⌊a / b⌋ : ℚ) + 1 := Int.lt_floor_add_one _
  have h2 : a < b * ((⌊a / b⌋ : ℚ) + 1) := by
    have := (div_lt_iff₀ hb).mp h1
    linarith [this]
  unfold jsMod
  nlinarith

theorem jsMod_int_mul (k : ℤ) {b : ℚ} (hb : b ≠ 0) : jsMod (b * (k : ℚ)) b = 0 := by
  unfold jsMod
  rw [mul_div_cancel_left₀ _ hb, Int.floor_intCast]
  ring

theorem jsMod_add_distance (a : ℚ) {b : ℚ} (hb : 0 < b) :
    jsMod (a + (b - jsMod a b)) b = 0 := by
  have h : a + (b - jsMod a b) = b * ((⌊a / b⌋ + 1 : ℤ) : ℚ) := by
    unfold jsMod
    push_cast
    ring
  rw [h, jsMod_int_mul _ hb.ne']

theorem jsMod_add_period (a : ℚ) {b : ℚ} (hb : 0 < b) (h : jsMod a b = 0) :
    jsMod (a + b) b = 0 := by
  have := jsMod_add_distance a hb
  rw [h, sub_zero] at this
  exact this

/-- Screenshot pixel format, from the `ScreenshotOptions` interface. -/
inductive ScreenshotFormat where
  | jpeg
  | png
deriving DecidableEq

/-- Options for creating a screenshot (`ScreenshotOptions` in the source). -/
structure ScreenshotOptions where
  format : ScreenshotFormat
  quality : Option ℕ
deriving DecidableEq

/-- One observable protocol interaction performed by the controller. Each
constructor records the arguments the source passes to the corresponding
DevTools call, or the invocation of a stored callback. -/
inductive PEvent (κ : Type) where
  /-- `Emulation.setVirtualTimePolicy { initialVirtualTime, policy: 'pause' }`
  issued by `grantInitialTime`. -/
  | setVirtualTimePolicyPause (initialVirtualTime : ℚ)
  /-- `Emulation.setVirtualTimePolicy { policy: 'pauseIfNetworkFetchesPending',
  budget, maxVirtualTimeTaskStarvationCount, waitForNavigation }` issued by
  `scheduleNextChunk_`. -/
  | setVirtualTimePolicy (budget : ℚ) (maxVirtualTimeTaskStarvationCount : ℕ)
      (waitForNavigation : Bool)
  /-- `HeadlessExperimental.beginFrame { frameTimeTicks, noDisplayUpdates?,
  screenshot? }`. -/
  | beginFrame (frameTimeTicks : ℚ) (noDisplayUpdates : Bool)
      (screenshot : Option ScreenshotOptions)
  /-- Invocation of the stored `onInstalled_` callback. -/
  | callInstalled (cb : κ) (virtualTimeBase : ℚ)
  /-- Invocation of the stored `onExpired_` callback. -/
  | callExpired (cb : κ) (totalElapsedTime : ℚ)
deriving DecidableEq

/-- State of the `VirtualTimeController` class (field for field). -/
structure VirtualTimeController (κ : Type) where
  animationFrameInterval_ : ℚ
  maxTaskStarvationCount_ : ℕ
  virtualTimeBase_ : ℚ
  remainingBudget_ : ℚ
  lastGrantedChunk_ : ℚ
  totalElapsedTime_ : ℚ
  onInstalled_ : Option κ
  onExpired_ : Option κ
deriving DecidableEq

namespace VirtualTimeController

variable {κ : Type}

/-- JavaScript `x || d` for an optional numeric argument: `undefined` and `0`
both fall back to the default. -/
def jsOrDefaultQ (x : Option ℚ) (d : ℚ) : ℚ :=
  match x with
  | none => d
  | some v => if v = 0 then d else v

/-- JavaScript `x || d` for the optional starvation-count argument. -/
def jsOrDefaultN (x : Option ℕ) (d : ℕ) : ℕ :=
  match x with
  | none => d
  | some v => if v = 0 then d else v

/-- The constructor: `animationFrameInterval || 16`,
`maxTaskStarvationCount || 100 * 1000`, all bookkeeping fields zero, no
callbacks stored. -/
def mkController (κ : Type) (animationFrameInterval : Option ℚ)
    (maxTaskStarvationCount : Option ℕ) : VirtualTimeController κ where
  animationFrameInterval_ := jsOrDefaultQ animationFrameInterval 16
  maxTaskStarvationCount_ := jsOrDefaultN maxTaskStarvationCount (100 * 1000)
  virtualTimeBase_ := 0
  remainingBudget_ := 0
  lastGrantedChunk_ := 0
  totalElapsedTime_ := 0
  onInstalled_ := none
  onExpired_ := none

/-- Method `currentFrameTime()`. -/
def currentFrameTime (s : VirtualTimeController κ) : ℚ :=
  s.virtualTimeBase_ + s.totalElapsedTime_

/-- Method `elapsedTime()`. -/
def elapsedTime (s : VirtualTimeController κ) : ℚ :=
  s.totalElapsedTime_

/-- Method `scheduleNextChunk_()`: computes the distance to the next
animation-frame boundary, submits `min` of it and the remaining budget as the
next chunk, records it in `lastGrantedChunk_`, and fires `onInstalled_` (once)
after the policy request. -/
def scheduleNextChunk_ (s : VirtualTimeController κ) :
    VirtualTimeController κ × List (PEvent κ) :=
  let lastFrame := jsMod s.totalElapsedTime_ s.animationFrameInterval_
  let nextAnimationFrame := s.animationFrameInterval_ - lastFrame
  let chunk := min nextAnimationFrame s.remainingBudget_
  let installedEvents : List (PEvent κ) :=
    match s.onInstalled_ with
    | some cb => [PEvent.callInstalled cb s.virtualTimeBase_]
    | none => []
  ({ s with lastGrantedChunk_ := chunk, onInstalled_ := none },
    PEvent.setVirtualTimePolicy chunk s.maxTaskStarvationCount_
      (decide (s.totalElapsedTime_ = 0)) :: installedEvents)

/-- Method `issueAnimationFrameAndScheduleNextChunk_()`: if virtual time has
advanced, budget remains, and we sit exactly on an animation-frame boundary,
issue a display-suppressed `beginFrame`, then schedule the next chunk. -/
def issueAnimationFrameAndScheduleNextChunk_ (s : VirtualTimeController κ) :
    VirtualTimeController κ × List (PEvent κ) :=
  let frameEvents : List (PEvent κ) :=
    if 0 < s.totalElapsedTime_ ∧ 0 < s.remainingBudget_ ∧
        jsMod s.totalElapsedTime_ s.animationFrameInterval_ = 0 then
      [PEvent.beginFrame (s.virtualTimeBase_ + s.totalElapsedTime_) true none]
    else []
  let sched := scheduleNextChunk_ s
  (sched.1, frameEvents ++ sched.2)

/-- Method `grantTime(budget, onExpired)`: overwrites `remainingBudget_` and
`onExpired_`, then starts the chunking loop. -/
def grantTime (s : VirtualTimeController κ) (budget : ℚ) (onExpired : κ) :
    VirtualTimeController κ × List (PEvent κ) :=
  issueAnimationFrameAndScheduleNextChunk_
    { s with remainingBudget_ := budget, onExpired_ := some onExpired }

/-- Method `grantInitialTime(budget, initialVirtualTime, onInstalled,
onExpired)`. The protocol answers the pause request with
`virtualTimeTicksBase`; that response is the `base` argument here. -/
def grantInitialTime (s : VirtualTimeController κ) (budget initialVirtualTime : ℚ)
    (base : ℚ) (onInstalled onExpired : κ) :
    VirtualTimeController κ × List (PEvent κ) :=
  let s1 := { s with virtualTimeBase_ := base, onInstalled_ := some onInstalled }
  let g := grantTime s1 budget onExpired
  (g.1, PEvent.setVirtualTimePolicyPause initialVirtualTime ::
    PEvent.beginFrame base false none :: g.2)

/-- Method `stopVirtualTimeGracefully()`: `if (this.remainingBudget_)
this.remainingBudget_ = 0`. -/
def stopVirtualTimeGracefully (s : VirtualTimeController κ) :
    VirtualTimeController κ :=
  if s.remainingBudget_ = 0 then s else { s with remainingBudget_ := 0 }

/-- Method `captureScreenshot(options)`: requests a frame render carrying the
current frame time and the screenshot options, then nudges
`virtualTimeBase_` by 0.01 so the next frame timestamp is strictly greater. -/
def captureScreenshot (s : VirtualTimeController κ) (options : ScreenshotOptions) :
    VirtualTimeController κ × List (PEvent κ) :=
  let frameTimeTicks := currentFrameTime s
  ({ s with virtualTimeBase_ := s.virtualTimeBase_ + 1 / 100 },
    [PEvent.beginFrame frameTimeTicks false (some options)])

/-- The `Emulation.virtualTimeBudgetExpired` handler installed by the
constructor: account the last granted chunk, then either fire `onExpired_`
(when the remaining budget is exactly zero) or continue the chunking loop. -/
def onVirtualTimeBudgetExpired (s : VirtualTimeController κ) :
    VirtualTimeController κ × List (PEvent κ) :=
  let s1 := { s with
    totalElapsedTime_ := s.totalElapsedTime_ + s.lastGrantedChunk_,
    remainingBudget_ := s.remainingBudget_ - s.lastGrantedChunk_ }
  if s1.remainingBudget_ = 0 then
    match s1.onExpired_ with
    | some cb => (s1, [PEvent.callExpired cb s1.totalElapsedTime_])
    | none => (s1, [])
  else
    issueAnimationFrameAndScheduleNextChunk_ s1

end VirtualTimeController

open VirtualTimeController

variable {κ : Type}

/-- Size of the chunk `scheduleNextChunk_` submits from elapsed time `e` and
remaining budget `r`: `min (A - e % A) r`. -/
def chunkOf (A e r : ℚ) : ℚ := min (A - jsMod e A) r

/-- The sequence of chunk budgets a grant submits, computed purely: the first
chunk is always issued; afterwards, while the remaining budget has not hit
exactly zero, the loop continues from the advanced state. `fuel` bounds the
number of chunks. -/
def chunkList (A : ℚ) : ℕ → ℚ → ℚ → List ℚ
  | 0, _, _ => []
  | n + 1, e, r =>
    let c := chunkOf A e r
    if r - c = 0 then [c] else c :: chunkList A n (e + c) (r - c)

/-- The (elapsedTime, remainingBudget) pair after `fuel` budget-expiry events
have been processed, computed purely alongside `chunkList`. -/
def loopFinal (A : ℚ) : ℕ → ℚ → ℚ → ℚ × ℚ
  | 0, e, r => (e, r)
  | n + 1, e, r =>
    let c := chunkOf A e r
    if r - c = 0 then (e + c, r - c) else loopFinal A n (e + c) (r - c)

/-- Budgets of the `setVirtualTimePolicy` chunk requests in a trace (the
initial pause request carries no budget and is not a chunk). -/
def chunkBudgets : List (PEvent κ) → List ℚ
  | [] => []
  | PEvent.setVirtualTimePolicy b _ _ :: rest => b :: chunkBudgets rest
  | _ :: rest => chunkBudgets rest

/-- Number of `onInstalled_` invocations recorded in a trace. -/
def countInstalled : List (PEvent κ) → ℕ
  | [] => 0
  | PEvent.callInstalled _ _ :: rest => countInstalled rest + 1
  | _ :: rest => countInstalled rest

/-- Number of `onExpired_` invocations recorded in a trace. -/
def countExpired : List (PEvent κ) → ℕ
  | [] => 0
  | PEvent.callExpired _ _ :: rest => countExpired rest + 1
  | _ :: rest => countExpired rest

/-- Number of screenshot-carrying `beginFrame` requests in a trace. -/
def countCaptures : List (PEvent κ) → ℕ
  | [] => 0
  | PEvent.beginFrame _ _ (some _) :: rest => countCaptures rest + 1
  | _ :: rest => countCaptures rest

/-- Delivery of up to `fuel` successive `virtualTimeBudgetExpired` events: the
protocol fires one expiry per outstanding chunk, and the handler schedules a
further chunk exactly when the remaining budget is not zero, so delivery stops
as soon as the handler leaves the budget at zero. -/
def runExpiries : ℕ → VirtualTimeController κ → VirtualTimeController κ × List (PEvent κ)
  | 0, s => (s, [])
  | n + 1, s =>
    let step := onVirtualTimeBudgetExpired s
    if step.1.remainingBudget_ = 0 then step
    else
      let rest := runExpiries n step.1
      (rest.1, step.2 ++ rest.2)

/-- A full grant as executed by the program: `grantTime` followed by delivery
of up to `fuel` budget-expiry events. -/
def grantRun (s : VirtualTimeController κ) (budget : ℚ) (cb : κ) (fuel : ℕ) :
    VirtualTimeController κ × List (PEvent κ) :=
  let g := grantTime s budget cb
  let rest := runExpiries fuel g.1
  (rest.1, g.2 ++ rest.2)

/-- A full initial grant: `grantInitialTime` followed by delivery of up to
`fuel` budget-expiry events. -/
def grantInitialRun (s : VirtualTimeController κ) (budget initialVirtualTime base : ℚ)
    (onInstalled onExpired : κ) (fuel : ℕ) :
    VirtualTimeController κ × List (PEvent κ) :=
  let g := grantInitialTime s budget initialVirtualTime base onInstalled onExpired
  let rest := runExpiries fuel g.1
  (rest.1, g.2 ++ rest.2)

theorem chunkOf_nonneg {A : ℚ} (hA : 0 < A) (e : ℚ) {r : ℚ} (hr : 0 ≤ r) :
    0 ≤ chunkOf A e r :=
  le_min (by linarith [jsMod_lt e hA]) hr

theorem chunkOf_pos {A : ℚ} (hA : 0 < A) (e : ℚ) {r : ℚ} (hr : 0 < r) :
    0 < chunkOf A e r :=
  lt_min (by linarith [jsMod_lt e hA]) hr

theorem chunkOf_le_right (A e r : ℚ) : chunkOf A e r ≤ r := min_le_right _ _

theorem chunkOf_le_dist (A e r : ℚ) : chunkOf A e r ≤ A - jsMod e A := min_le_left _ _

theorem chunkOf_boundary {A e : ℚ} (h : jsMod e A = 0) (r : ℚ) :
    chunkOf A e r = min A r := by
  rw [chunkOf, h, sub_zero]

/-- A non-terminal chunk reaches the next animation-frame boundary exactly. -/
theorem chunkOf_of_not_terminal {A e r : ℚ} (h : r - chunkOf A e r ≠ 0) :
    chunkOf A e r = A - jsMod e A := by
  rcases min_cases (A - jsMod e A) r with ⟨h1, _⟩ | ⟨h1, _⟩
  · exact h1
  · exact absurd (by rw [chunkOf, h1, sub_self]) h

theorem jsMod_after_chunk {A e r : ℚ} (hA : 0 < A) (h : r - chunkOf A e r ≠ 0) :
    jsMod (e + chunkOf A e r) A = 0 := by
  rw [chunkOf_of_not_terminal h]
  exact jsMod_add_distance e hA

theorem chunkList_succ (A : ℚ) (n : ℕ) (e r : ℚ) :
    chunkList A (n + 1) e r =
      if r - chunkOf A e r = 0 then [chunkOf A e r]
      else chunkOf A e r :: chunkList A n (e + chunkOf A e r) (r - chunkOf A e r) := rfl

theorem loopFinal_succ (A : ℚ) (n : ℕ) (e r : ℚ) :
    loopFinal A n.succ e r =
      if r - chunkOf A e r = 0 then (e + chunkOf A e r, r - chunkOf A e r)
      else loopFinal A n (e + chunkOf A e r) (r - chunkOf A e r) := rfl

theorem chunkList_cons_tail (A : ℚ) (n : ℕ) (e r : ℚ) :
    chunkList A (n + 1) e r = chunkOf A e r :: (chunkList A (n + 1) e r).tail := by
  rw [chunkList_succ]
  split <;> rfl

theorem ceil_div_eq_one {A r : ℚ} (hA : 0 < A) (hr : 0 < r) (hle : r ≤ A) :
    ⌈r / A⌉ = 1 := by
  rw [Int.ceil_eq_iff]
  constructor
  · push_cast
    have := div_pos hr hA
    linarith
  · push_cast
    exact (div_le_one hA).mpr hle

theorem ceil_div_sub {A r : ℚ} (hA : 0 < A) :
    ⌈(r - A) / A⌉ = ⌈r / A⌉ - 1 := by
  have h : (r - A) / A = r / A - 1 := by
    field_simp
  rw [h, Int.ceil_sub_one]

theorem ceil_div_two_le {A r : ℚ} (hA : 0 < A) (hlt : A < r) : 2 ≤ ⌈r / A⌉ := by
  have h1 : (1 : ℚ) < r / A := (one_lt_div hA).mpr hlt
  have h2 : r / A ≤ (⌈r / A⌉ : ℚ) := Int.le_ceil _
  have : (1 : ℚ) < (⌈r / A⌉ : ℚ) := lt_of_lt_of_le h1 h2
  exact_mod_cast this

theorem ceil_div_mono {A r₁ r₂ : ℚ} (hA : 0 < A) (h : r₁ ≤ r₂) :
    ⌈r₁ / A⌉ ≤ ⌈r₂ / A⌉ :=
  Int.ceil_le_ceil (by gcongr)

/-- Core properties of the chunking loop once it sits on an animation-frame
boundary: the chunks sum to the remaining budget, there are exactly
`⌈r / A⌉` of them, the loop ends with the budget at exactly zero, further fuel
changes nothing, and every chunk is strictly positive. -/
theorem chunkList_boundary {A : ℚ} (hA : 0 < A) (n : ℕ) :
    ∀ (e r : ℚ), 0 < r → jsMod e A = 0 → ⌈r / A⌉ ≤ (n : ℤ) →
      (chunkList A n e r).sum = r ∧
      ((chunkList A n e r).length : ℤ) = ⌈r / A⌉ ∧
      loopFinal A n e r = (e + r, 0) ∧
      (∀ m : ℕ, ⌈r / A⌉ ≤ (m : ℤ) →
        chunkList A m e r = chunkList A n e r ∧
        loopFinal A m e r = loopFinal A n e r) ∧
      (∀ c ∈ chunkList A n e r, 0 < c) := by
  induction n with
  | zero =>
    intro e r hr h0 hn
    exfalso
    have : 0 < ⌈r / A⌉ := Int.ceil_pos.mpr (div_pos hr hA)
    omega
  | succ k ih =>
    intro e r hr h0 hn
    have hchunk : chunkOf A e r = min A r := chunkOf_boundary h0 r
    by_cases hle : r ≤ A
    · have hc : chunkOf A e r = r := by rw [hchunk, min_eq_right hle]
      have hterm : r - chunkOf A e r = 0 := by rw [hc, sub_self]
      have hceil : ⌈r / A⌉ = 1 := ceil_div_eq_one hA hr hle
      refine ⟨?_, ?_, ?_, ?_, ?_⟩
      · rw [chunkList_succ, if_pos hterm, hc, List.sum_singleton]
      · rw [chunkList_succ, if_pos hterm, hceil]
        rfl
      · rw [loopFinal_succ, if_pos hterm, hc]
        norm_num
      · intro m hm
        rw [hceil] at hm
        obtain ⟨j, rfl⟩ : ∃ j, m = j + 1 := ⟨m - 1, by omega⟩
        rw [chunkList_succ, if_pos hterm, chunkList_succ, if_pos hterm,
          loopFinal_succ, if_pos hterm, loopFinal_succ, if_pos hterm]
        exact ⟨rfl, rfl⟩
      · intro c hcmem
        rw [chunkList_succ, if_pos hterm, List.mem_singleton] at hcmem
        rw [hcmem, hc]
        exact hr
    · push_neg at hle
      have hc : chunkOf A e r = A := by rw [hchunk, min_eq_left hle.le]
      have hterm : r - chunkOf A e r ≠ 0 := by
        rw [hc]
        intro hcontra
        have : r = A := by linarith
        exact absurd this (by intro h; rw [h] at hle; exact lt_irrefl A hle)
      have hb2 : jsMod (e + chunkOf A e r) A = 0 := by
        rw [hc]
        exact jsMod_add_period e hA h0
      have hceil2 : ⌈(r - A) / A⌉ = ⌈r / A⌉ - 1 := ceil_div_sub hA
      have h2 : 2 ≤ ⌈r / A⌉ := ceil_div_two_le hA hle
      have hkb : ⌈(r - A) / A⌉ ≤ (k : ℤ) := by
        push_cast at hn
        omega
      obtain ⟨ihsum, ihlen, ihfin, ihstab, ihpos⟩ :=
        ih (e + A) (r - A) (by linarith) (by rw [← hc]; rw [hc]; rwa [hc] at hb2) hkb
      refine ⟨?_, ?_, ?_, ?_, ?_⟩
      · rw [chunkList_succ, if_neg hterm, List.sum_cons, hc, ihsum]
        ring
      · rw [chunkList_succ, if_neg hterm, List.length_cons, hc]
        push_cast
        omega
      · rw [loopFinal_succ, if_neg hterm, hc, ihfin]
        have harith : e + A + (r - A) = e + r := by ring
        rw [harith]
      · intro m hm
        obtain ⟨j, rfl⟩ : ∃ j, m = j + 1 := ⟨m - 1, by omega⟩
        have hjb : ⌈(r - A) / A⌉ ≤ (j : ℤ) := by
          push_cast at hm
          omega
        obtain ⟨hstab1, hstab2⟩ := ihstab j hjb
        rw [chunkList_succ, if_neg hterm, chunkList_succ, if_neg hterm,
          loopFinal_succ, if_neg hterm, loopFinal_succ, if_neg hterm, hc]
        exact ⟨by rw [hstab1], by rw [hstab2]⟩
      · intro c hcmem
        rw [chunkList_succ, if_neg hterm, List.mem_cons] at hcmem
        rcases hcmem with hcmem | hcmem
        · rw [hcmem, hc]
          exact hA
        · rw [hc] at hcmem
          exact ihpos c hcmem

/-- Core properties of a full grant of budget `r` started at arbitrary elapsed
time `e`: the chunks sum to `r`, there are at most `⌈r / A⌉ + 1` of them, the
loop ends with the budget at exactly zero, further fuel changes nothing, and
every chunk is strictly positive when the budget is. -/
theorem chunkList_spec {A : ℚ} (hA : 0 < A) (n : ℕ) (e r : ℚ) (hr : 0 ≤ r)
    (hn : ⌈r / A⌉ + 1 ≤ (n : ℤ)) :
    (chunkList A n e r).sum = r ∧
    ((chunkList A n e r).length : ℤ) ≤ ⌈r / A⌉ + 1 ∧
    loopFinal A n e r = (e + r, 0) ∧
    (∀ m : ℕ, ⌈r / A⌉ + 1 ≤ (m : ℤ) →
      chunkList A m e r = chunkList A n e r ∧
      loopFinal A m e r = loopFinal A n e r) ∧
    (0 < r → ∀ c ∈ chunkList A n e r, 0 < c) := by
  have hceil0 : 0 ≤ ⌈r / A⌉ := Int.ceil_nonneg (div_nonneg hr hA.le)
  obtain ⟨k, rfl⟩ : ∃ k, n = k + 1 := ⟨n - 1, by omega⟩
  by_cases hterm : r - chunkOf A e r = 0
  · have hc : chunkOf A e r = r := by linarith
    refine ⟨?_, ?_, ?_, ?_, ?_⟩
    · rw [chunkList_succ, if_pos hterm, hc, List.sum_singleton]
    · rw [chunkList_succ, if_pos hterm]
      simp only [List.length_singleton]
      omega
    · rw [loopFinal_succ, if_pos hterm, hc]
      norm_num
    · intro m hm
      obtain ⟨j, rfl⟩ : ∃ j, m = j + 1 := ⟨m - 1, by omega⟩
      rw [chunkList_succ, if_pos hterm, chunkList_succ, if_pos hterm,
        loopFinal_succ, if_pos hterm, loopFinal_succ, if_pos hterm]
      exact ⟨rfl, rfl⟩
    · intro hrpos c hcmem
      rw [chunkList_succ, if_pos hterm, List.mem_singleton] at hcmem
      rw [hcmem, hc]
      exact hrpos
  · have hcle : chunkOf A e r ≤ r := chunkOf_le_right A e r
    have hrpos : 0 < r := by
      rcases lt_or_eq_of_le hr with h | h
      · exact h
      · exfalso
        apply hterm
        have h1 : chunkOf A e r = 0 := by
          have := chunkOf_nonneg hA e hr
          have := chunkOf_le_right A e r
          linarith [h.symm ▸ (le_antisymm (h ▸ chunkOf_le_right A e r) (h ▸ chunkOf_nonneg hA e hr))]
        rw [h1, ← h]
        ring
    have hcpos : 0 < chunkOf A e r := chunkOf_pos hA e hrpos
    have hrem : 0 < r - chunkOf A e r := by
      rcases lt_or_eq_of_le hcle with h | h
      · linarith
      · exact absurd (by rw [h, sub_self]) hterm
    have hb2 : jsMod (e + chunkOf A e r) A = 0 := jsMod_after_chunk hA hterm
    have hmono : ⌈(r - chunkOf A e r) / A⌉ ≤ ⌈r / A⌉ :=
      ceil_div_mono hA (by linarith)
    have hkb : ⌈(r - chunkOf A e r) / A⌉ ≤ (k : ℤ) := by
      push_cast at hn
      omega
    obtain ⟨bsum, blen, bfin, bstab, bpos⟩ :=
      chunkList_boundary hA k (e + chunkOf A e r) (r - chunkOf A e r) hrem hb2 hkb
    refine ⟨?_, ?_, ?_, ?_, ?_⟩
    · rw [chunkList_succ, if_neg hterm, List.sum_cons, bsum]
      ring
    · rw [chunkList_succ, if_neg hterm, List.length_cons]
      push_cast
      omega
    · rw [loopFinal_succ, if_neg hterm, bfin]
      have harith : e + chunkOf A e r + (r - chunkOf A e r) = e + r := by ring
      rw [harith]
    · intro m hm
      obtain ⟨j, rfl⟩ : ∃ j, m = j + 1 := ⟨m - 1, by omega⟩
      have hjb : ⌈(r - chunkOf A e r) / A⌉ ≤ (j : ℤ) := by
        push_cast at hm
        omega
      obtain ⟨hstab1, hstab2⟩ := bstab j hjb
      rw [chunkList_succ, if_neg hterm, chunkList_succ, if_neg hterm,
        loopFinal_succ, if_neg hterm, loopFinal_succ, if_neg hterm]
      exact ⟨by rw [hstab1], by rw [hstab2]⟩
    · intro _ c hcmem
      rw [chunkList_succ, if_neg hterm, List.mem_cons] at hcmem
      rcases hcmem with hcmem | hcmem
      · rw [hcmem]
        exact hcpos
      · exact bpos c hcmem

theorem chunkBudgets_append (l₁ l₂ : List (PEvent κ)) :
    chunkBudgets (l₁ ++ l₂) = chunkBudgets l₁ ++ chunkBudgets l₂ := by
  induction l₁ with
  | nil => rfl
  | cons h t ih => cases h <;> simp [chunkBudgets, ih]

theorem countInstalled_append (l₁ l₂ : List (PEvent κ)) :
    countInstalled (l₁ ++ l₂) = countInstalled l₁ + countInstalled l₂ := by
  induction l₁ with
  | nil => simp [countInstalled]
  | cons h t ih => cases h <;> simp [countInstalled, ih] <;> omega

theorem countExpired_append (l₁ l₂ : List (PEvent κ)) :
    countExpired (l₁ ++ l₂) = countExpired l₁ + countExpired l₂ := by
  induction l₁ with
  | nil => simp [countExpired]
  | cons h t ih => cases h <;> simp [countExpired, ih] <;> omega

theorem countCaptures_append (l₁ l₂ : List (PEvent κ)) :
    countCaptures (l₁ ++ l₂) = countCaptures l₁ + countCaptures l₂ := by
  induction l₁ with
  | nil => simp [countCaptures]
  | cons h t ih =>
    cases h with
    | beginFrame ftt ndu shot => cases shot <;> simp [countCaptures, ih] <;> omega
    | _ => simp [countCaptures, ih]

theorem scheduleNextChunk_fst (s : VirtualTimeController κ) :
    (scheduleNextChunk_ s).1 = { s with
      lastGrantedChunk_ :=
        chunkOf s.animationFrameInterval_ s.totalElapsedTime_ s.remainingBudget_,
      onInstalled_ := none } := rfl

theorem issueAnimationFrame_fst (s : VirtualTimeController κ) :
    (issueAnimationFrameAndScheduleNextChunk_ s).1 = (scheduleNextChunk_ s).1 := rfl

theorem grantTime_fst (s : VirtualTimeController κ) (budget : ℚ) (cb : κ) :
    (grantTime s budget cb).1 = { s with
      remainingBudget_ := budget,
      lastGrantedChunk_ :=
        chunkOf s.animationFrameInterval_ s.totalElapsedTime_ budget,
      onInstalled_ := none,
      onExpired_ := some cb } := rfl

theorem issueAnimationFrame_chunkBudgets (s : VirtualTimeController κ) :
    chunkBudgets (issueAnimationFrameAndScheduleNextChunk_ s).2 =
      [chunkOf s.animationFrameInterval_ s.totalElapsedTime_ s.remainingBudget_] := by
  unfold issueAnimationFrameAndScheduleNextChunk_ scheduleNextChunk_
  simp only [chunkBudgets_append]
  split <;> cases honI : s.onInstalled_ <;> simp [chunkBudgets, chunkOf, jsMod]

theorem grantTime_chunkBudgets (s : VirtualTimeController κ) (budget : ℚ) (cb : κ) :
    chunkBudgets (grantTime s budget cb).2 =
      [chunkOf s.animationFrameInterval_ s.totalElapsedTime_ budget] := by
  unfold grantTime
  rw [issueAnimationFrame_chunkBudgets]

/-- State and chunk-budget effect of one `virtualTimeBudgetExpired` delivery
when the grant is not yet exhausted: account the chunk, then schedule the
next one. -/
theorem onExpired_nonterminal (s : VirtualTimeController κ)
    (h : s.remainingBudget_ - s.lastGrantedChunk_ ≠ 0) :
    (onVirtualTimeBudgetExpired s).1 = { s with
      totalElapsedTime_ := s.totalElapsedTime_ + s.lastGrantedChunk_,
      remainingBudget_ := s.remainingBudget_ - s.lastGrantedChunk_,
      lastGrantedChunk_ := chunkOf s.animationFrameInterval_
        (s.totalElapsedTime_ + s.lastGrantedChunk_)
        (s.remainingBudget_ - s.lastGrantedChunk_),
      onInstalled_ := none } ∧
    chunkBudgets (onVirtualTimeBudgetExpired s).2 =
      [chunkOf s.animationFrameInterval_
        (s.totalElapsedTime_ + s.lastGrantedChunk_)
        (s.remainingBudget_ - s.lastGrantedChunk_)] := by
  unfold onVirtualTimeBudgetExpired
  simp only [if_neg h]
  exact ⟨issueAnimationFrame_fst _ ▸ scheduleNextChunk_fst _,
    issueAnimationFrame_chunkBudgets _⟩

/-- State and chunk-budget effect of one `virtualTimeBudgetExpired` delivery
when the accounting leaves the budget at exactly zero: fire `onExpired_`,
schedule nothing. -/
theorem onExpired_terminal (s : VirtualTimeController κ)
    (h : s.remainingBudget_ - s.lastGrantedChunk_ = 0) :
    (onVirtualTimeBudgetExpired s).1 = { s with
      totalElapsedTime_ := s.totalElapsedTime_ + s.lastGrantedChunk_,
      remainingBudget_ := s.remainingBudget_ - s.lastGrantedChunk_ } ∧
    chunkBudgets (onVirtualTimeBudgetExpired s).2 = [] := by
  unfold onVirtualTimeBudgetExpired
  simp only [if_pos h]
  cases honE : s.onExpired_ <;> simp [chunkBudgets]

theorem runExpiries_succ (n : ℕ) (s : VirtualTimeController κ) :
    runExpiries (n + 1) s =
      if (onVirtualTimeBudgetExpired s).1.remainingBudget_ = 0 then
        onVirtualTimeBudgetExpired s
      else ((runExpiries n (onVirtualTimeBudgetExpired s).1).1,
        (onVirtualTimeBudgetExpired s).2 ++
          (runExpiries n (onVirtualTimeBudgetExpired s).1).2) := rfl

theorem runExpiries_succ_of_ne (n : ℕ) (s : VirtualTimeController κ)
    (h : ¬((onVirtualTimeBudgetExpired s).1.remainingBudget_ = 0)) :
    (runExpiries (n + 1) s).1 = (runExpiries n (onVirtualTimeBudgetExpired s).1).1 ∧
    (runExpiries (n + 1) s).2 =
      (onVirtualTimeBudgetExpired s).2 ++
        (runExpiries n (onVirtualTimeBudgetExpired s).1).2 := by
  rw [runExpiries_succ, if_neg h]
  exact ⟨rfl, rfl⟩

/-- Bridge between the event-driven expiry loop of the source and the pure
chunk model: provided `lastGrantedChunk_` holds the chunk computed from the
current state (which `scheduleNextChunk_` guarantees), delivering expiries
realizes `loopFinal` on the bookkeeping fields and submits exactly the chunk
budgets of `chunkList` (after the already-submitted first chunk). -/
theorem runExpiries_spec (n : ℕ) :
    ∀ s : VirtualTimeController κ,
      s.lastGrantedChunk_ =
        chunkOf s.animationFrameInterval_ s.totalElapsedTime_ s.remainingBudget_ →
      ((runExpiries n s).1.totalElapsedTime_, (runExpiries n s).1.remainingBudget_)
          = loopFinal s.animationFrameInterval_ n s.totalElapsedTime_
              s.remainingBudget_ ∧
      chunkBudgets (runExpiries n s).2
          = (chunkList s.animationFrameInterval_ (n + 1) s.totalElapsedTime_
              s.remainingBudget_).tail ∧
      (runExpiries n s).1.animationFrameInterval_ = s.animationFrameInterval_ ∧
      (runExpiries n s).1.virtualTimeBase_ = s.virtualTimeBase_ ∧
      (runExpiries n s).1.onExpired_ = s.onExpired_ := by
  induction n with
  | zero =>
    intro s hlgc
    refine ⟨rfl, ?_, rfl, rfl, rfl⟩
    rw [chunkList_succ]
    split <;> rfl
  | succ n ih =>
    intro s hlgc
    by_cases hterm : s.remainingBudget_ - s.lastGrantedChunk_ = 0
    · obtain ⟨hst, hcb⟩ := onExpired_terminal s hterm
      have hstepr : (onVirtualTimeBudgetExpired s).1.remainingBudget_ = 0 := by
        rw [hst]
        exact hterm
      have htermc : s.remainingBudget_ -
          chunkOf s.animationFrameInterval_ s.totalElapsedTime_ s.remainingBudget_
          = 0 := by
        rw [← hlgc]
        exact hterm
      rw [runExpiries_succ, if_pos hstepr]
      refine ⟨?_, ?_, by rw [hst], by rw [hst], by rw [hst]⟩
      · rw [hst, loopFinal_succ, if_pos htermc, ← hlgc]
      · rw [hcb, chunkList_succ, if_pos htermc]
        rfl
    · obtain ⟨hst, hcb⟩ := onExpired_nonterminal s hterm
      have hstepr : ¬((onVirtualTimeBudgetExpired s).1.remainingBudget_ = 0) := by
        rw [hst]
        exact hterm
      have htermc : ¬(s.remainingBudget_ -
          chunkOf s.animationFrameInterval_ s.totalElapsedTime_ s.remainingBudget_
          = 0) := by
        rw [← hlgc]
        exact hterm
      obtain ⟨hfst, hsnd⟩ := runExpiries_succ_of_ne n s hstepr
      obtain ⟨ihfin, ihcb, ihA, ihbase, ihexp⟩ :=
        ih (onVirtualTimeBudgetExpired s).1 (by rw [hst])
      refine ⟨?_, ?_, ?_, ?_, ?_⟩
      · rw [hfst, loopFinal_succ, if_neg htermc, ← hlgc, ihfin, hst]
      · rw [hsnd, chunkBudgets_append, hcb, ihcb,
          chunkList_succ s.animationFrameInterval_ (n + 1) s.totalElapsedTime_
            s.remainingBudget_,
          if_neg htermc, List.tail_cons, ← hlgc,
          chunkList_cons_tail s.animationFrameInterval_ n
            (s.totalElapsedTime_ + s.lastGrantedChunk_)
            (s.remainingBudget_ - s.lastGrantedChunk_),
          List.singleton_append, hst]
      · rw [hfst, ihA, hst]
      · rw [hfst, ihbase, hst]
      · rw [hfst, ihexp, hst]

theorem grantRun_fst (s : VirtualTimeController κ) (budget : ℚ) (cb : κ) (fuel : ℕ) :
    (grantRun s budget cb fuel).1 = (runExpiries fuel (grantTime s budget cb).1).1 := rfl

theorem grantRun_snd (s : VirtualTimeController κ) (budget : ℚ) (cb : κ) (fuel : ℕ) :
    (grantRun s budget cb fuel).2 =
      (grantTime s budget cb).2 ++ (runExpiries fuel (grantTime s budget cb).1).2 := rfl

/-- Bridge for a full grant: the chunk budgets a grant submits are exactly
`chunkList`, and the bookkeeping fields end at `loopFinal`. -/
theorem grantRun_spec (s : VirtualTimeController κ) (B : ℚ) (cb : κ) (fuel : ℕ) :
    chunkBudgets (grantRun s B cb fuel).2
        = chunkList s.animationFrameInterval_ (fuel + 1) s.totalElapsedTime_ B ∧
    ((grantRun s B cb fuel).1.totalElapsedTime_,
        (grantRun s B cb fuel).1.remainingBudget_)
        = loopFinal s.animationFrameInterval_ fuel s.totalElapsedTime_ B ∧
    (grantRun s B cb fuel).1.animationFrameInterval_ = s.animationFrameInterval_ ∧
    (grantRun s B cb fuel).1.virtualTimeBase_ = s.virtualTimeBase_ ∧
    (grantRun s B cb fuel).1.onExpired_ = some cb := by
  have hg := grantTime_fst s B cb
  obtain ⟨hfin, hcb2, hA, hbase, hexp⟩ :=
    runExpiries_spec fuel (grantTime s B cb).1 (by rw [hg])
  refine ⟨?_, ?_, ?_, ?_, ?_⟩
  · rw [grantRun_snd, chunkBudgets_append, grantTime_chunkBudgets, hcb2, hg,
      List.singleton_append,
      chunkList_cons_tail s.animationFrameInterval_ fuel s.totalElapsedTime_ B,
      List.tail_cons]
  · rw [grantRun_fst]
    exact hfin.trans (by rw [hg])
  · rw [grantRun_fst]
    exact hA.trans (by rw [hg])
  · rw [grantRun_fst]
    exact hbase.trans (by rw [hg])
  · rw [grantRun_fst]
    exact hexp.trans (by rw [hg])

theorem grantInitialRun_chunkBudgets (s : VirtualTimeController κ)
    (B ivt base : ℚ) (cbI cbE : κ) (fuel : ℕ) :
    chunkBudgets (grantInitialRun s B ivt base cbI cbE fuel).2 =
      chunkBudgets (grantRun
        { s with virtualTimeBase_ := base, onInstalled_ := some cbI }
        B cbE fuel).2 := rfl

/-- The chunks of a trace never cross an animation-frame boundary: each chunk
is at most the distance from the elapsed time at its submission to the next
boundary. -/
def chunkAligned (A : ℚ) : ℚ → List ℚ → Prop
  | _, [] => True
  | e, c :: cs => c ≤ A - jsMod e A ∧ chunkAligned A (e + c) cs

/-- The chunks of a trace follow the scheduling formula of the spec: each is
`min (A - elapsed % A) remaining` for the running elapsed/remaining values. -/
def chunkFormula (A : ℚ) : ℚ → ℚ → List ℚ → Prop
  | _, _, [] => True
  | e, r, c :: cs => c = min (A - jsMod e A) r ∧ chunkFormula A (e + c) (r - c) cs

theorem chunkList_aligned (A : ℚ) (n : ℕ) :
    ∀ e r : ℚ, chunkAligned A e (chunkList A n e r) := by
  induction n with
  | zero =>
    intro e r
    exact trivial
  | succ n ih =>
    intro e r
    rw [chunkList_succ]
    split
    · exact ⟨chunkOf_le_dist A e r, trivial⟩
    · exact ⟨chunkOf_le_dist A e r, ih (e + chunkOf A e r) (r - chunkOf A e r)⟩

theorem chunkList_formula (A : ℚ) (n : ℕ) :
    ∀ e r : ℚ, chunkFormula A e r (chunkList A n e r) := by
  induction n with
  | zero =>
    intro e r
    exact trivial
  | succ n ih =>
    intro e r
    rw [chunkList_succ]
    split
    · exact ⟨rfl, trivial⟩
    · exact ⟨rfl, ih (e + chunkOf A e r) (r - chunkOf A e r)⟩

theorem ceil_le_of_le_mul {A B : ℚ} {fuel : ℕ} (hA : 0 < A)
    (h : B ≤ A * fuel) : ⌈B / A⌉ ≤ (fuel : ℤ) := by
  rw [Int.ceil_le]
  push_cast
  rw [div_le_iff₀ hA]
  linarith

/-- Number of budget-expiry deliveries that always suffices to complete a
grant of budget `B` with animation-frame interval `A`. -/
def grantFuel (A B : ℚ) : ℕ := (⌈B / A⌉).toNat + 1

/-- C1: for every grant of budget `B` milliseconds made via `grantTime` (or
`grantInitialTime`) with animation-frame interval `A > 0`, the sizes of all
sub-chunks the controller submits to the protocol via `setVirtualTimePolicy`
sum to exactly `B`, every sub-chunk ends at or before the next animation-frame
boundary, and each chunk equals `min (A - elapsedTime % A) remainingBudget`.
The fuel hypothesis `B ≤ A * fuel` lets enough expiry events be delivered for
the grant to complete. -/
theorem grant_chunks_sum_to_budget (s : VirtualTimeController κ)
    (B ivt base : ℚ) (cbI cbE : κ) (fuel : ℕ)
    (hA : 0 < s.animationFrameInterval_) (hB : 0 ≤ B)
    (hfuel : B ≤ s.animationFrameInterval_ * fuel) :
    (chunkBudgets (grantRun s B cbE fuel).2).sum = B ∧
    (chunkBudgets (grantInitialRun s B ivt base cbI cbE fuel).2).sum = B ∧
    chunkFormula s.animationFrameInterval_ s.totalElapsedTime_ B
      (chunkBudgets (grantRun s B cbE fuel).2) ∧
    chunkAligned s.animationFrameInterval_ s.totalElapsedTime_
      (chunkBudgets (grantRun s B cbE fuel).2) := by
  have hceil : ⌈B / s.animationFrameInterval_⌉ + 1 ≤ ((fuel + 1 : ℕ) : ℤ) := by
    have := ceil_le_of_le_mul hA hfuel
    push_cast
    omega
  obtain ⟨hsum, _, _, _, _⟩ :=
    chunkList_spec hA (fuel + 1) s.totalElapsedTime_ B hB hceil
  obtain ⟨hbr, _, _, _, _⟩ := grantRun_spec s B cbE fuel
  refine ⟨?_, ?_, ?_, ?_⟩
  · rw [hbr]
    exact hsum
  · rw [grantInitialRun_chunkBudgets]
    obtain ⟨hbr2, _, _, _, _⟩ := grantRun_spec
      { s with virtualTimeBase_ := base, onInstalled_ := some cbI } B cbE fuel
    rw [hbr2]
    exact hsum
  · rw [hbr]
    exact chunkList_formula _ _ _ _
  · rw [hbr]
    exact chunkList_aligned _ _ _ _

/-- Witness for C1 at a concrete input: interval 16 (the default), budget 20,
two expiry deliveries. -/
theorem grant_chunks_sum_to_budget_witness :
    (0 : ℚ) < (mkController ℕ none none).animationFrameInterval_ ∧
    (0 : ℚ) ≤ 20 ∧
    (20 : ℚ) ≤ (mkController ℕ none none).animationFrameInterval_ * (2 : ℕ) ∧
    (chunkBudgets (grantRun (mkController ℕ none none) 20 7 2).2).sum = 20 :=
  ⟨by decide, by decide, by norm_num [mkController, jsOrDefaultQ],
    (grant_chunks_sum_to_budget (mkController ℕ none none) 20 10000 10000 5 7 2
      (by decide) (by decide) (by norm_num [mkController, jsOrDefaultQ])).1⟩

/-- C10: for every grant with budget `B ≥ 0` and interval `A > 0` (no
interleaved stop or new grant), the chunking loop terminates: with
`grantFuel A B = ⌈B / A⌉ + 1` expiry deliveries it issues at most
`⌈B / A⌉ + 1` chunks, delivering more expiry events changes nothing, the
remaining budget ends at exactly zero (with elapsed time increased by exactly
`B`), and every chunk of a positive grant is strictly positive. -/
theorem grant_chunking_terminates (s : VirtualTimeController κ) (B : ℚ) (cb : κ)
    (hA : 0 < s.animationFrameInterval_) (hB : 0 ≤ B) :
    ((chunkBudgets (grantRun s B cb
          (grantFuel s.animationFrameInterval_ B)).2).length : ℤ)
        ≤ ⌈B / s.animationFrameInterval_⌉ + 1 ∧
    (∀ fuel : ℕ, grantFuel s.animationFrameInterval_ B ≤ fuel →
      chunkBudgets (grantRun s B cb fuel).2 =
        chunkBudgets (grantRun s B cb
          (grantFuel s.animationFrameInterval_ B)).2) ∧
    (grantRun s B cb (grantFuel s.animationFrameInterval_ B)).1.remainingBudget_
        = 0 ∧
    (grantRun s B cb (grantFuel s.animationFrameInterval_ B)).1.totalElapsedTime_
        = s.totalElapsedTime_ + B ∧
    (0 < B → ∀ c ∈ chunkBudgets (grantRun s B cb
        (grantFuel s.animationFrameInterval_ B)).2, 0 < c) := by
  have hceil0 : 0 ≤ ⌈B / s.animationFrameInterval_⌉ :=
    Int.ceil_nonneg (div_nonneg hB hA.le)
  have hF : ⌈B / s.animationFrameInterval_⌉ + 1 ≤
      ((grantFuel s.animationFrameInterval_ B : ℕ) : ℤ) := by
    unfold grantFuel
    push_cast
    omega
  have hF1 : ⌈B / s.animationFrameInterval_⌉ + 1 ≤
      ((grantFuel s.animationFrameInterval_ B + 1 : ℕ) : ℤ) := by
    push_cast
    push_cast at hF
    omega
  obtain ⟨_, hlenF1, _, hstabF1, hposF1⟩ :=
    chunkList_spec hA (grantFuel s.animationFrameInterval_ B + 1)
      s.totalElapsedTime_ B hB hF1
  obtain ⟨_, _, hfinF, _, _⟩ :=
    chunkList_spec hA (grantFuel s.animationFrameInterval_ B)
      s.totalElapsedTime_ B hB hF
  obtain ⟨hbr, hfin, _, _, _⟩ :=
    grantRun_spec s B cb (grantFuel s.animationFrameInterval_ B)
  have hfinal : ((grantRun s B cb
        (grantFuel s.animationFrameInterval_ B)).1.totalElapsedTime_,
      (grantRun s B cb
        (grantFuel s.animationFrameInterval_ B)).1.remainingBudget_)
      = (s.totalElapsedTime_ + B, 0) := by
    rw [hfin, hfinF]
  rw [Prod.mk.injEq] at hfinal
  refine ⟨?_, ?_, hfinal.2, hfinal.1, ?_⟩
  · rw [hbr]
    exact hlenF1
  · intro fuel hfuel
    obtain ⟨hbrf, _, _, _, _⟩ := grantRun_spec s B cb fuel
    rw [hbrf, hbr]
    have hm : ⌈B / s.animationFrameInterval_⌉ + 1 ≤ ((fuel + 1 : ℕ) : ℤ) := by
      push_cast
      push_cast at hF
      omega
    exact (hstabF1 (fuel + 1) hm).1
  · intro hBpos c hc
    rw [hbr] at hc
    exact hposF1 hBpos c hc

/-- Witness for C10 at a concrete input: interval 16 (the default), budget
40. -/
theorem grant_chunking_terminates_witness :
    (0 : ℚ) < (mkController ℕ none none).animationFrameInterval_ ∧
    (0 : ℚ) ≤ 40 ∧
    (grantRun (mkController ℕ none none) 40 3
      (grantFuel (mkController ℕ none none).animationFrameInterval_ 40)).1.remainingBudget_
      = 0 :=
  ⟨by decide, by decide,
    (grant_chunking_terminates (mkController ℕ none none) 40 3
      (by decide) (by decide)).2.2.1⟩

/-- A session snapshot: the controller state, whether a chunk submitted to the
protocol still awaits its `virtualTimeBudgetExpired` event, and (as
specification bookkeeping) the cumulative budget granted so far. -/
structure Session (κ : Type) where
  vtc : VirtualTimeController κ
  outstanding : Bool
  granted : ℚ

/-- The operations a caller and the protocol can interleave on a running
controller. -/
inductive Op (κ : Type) where
  /-- A call `grantTime(B, cb)`. -/
  | grant (B : ℚ) (cb : κ)
  /-- Delivery of one `Emulation.virtualTimeBudgetExpired` event. -/
  | expiry
  /-- A call `captureScreenshot(options)`. -/
  | capture (options : ScreenshotOptions)
  /-- A call `stopVirtualTimeGracefully()`. -/
  | stop

/-- Effect of one operation on a session. A grant leaves a chunk outstanding;
an expiry leaves a chunk outstanding exactly when the handler scheduled a
further chunk, i.e. when the remaining budget is not zero. -/
def applyOp (s : Session κ) : Op κ → Session κ × List (PEvent κ)
  | Op.grant B cb =>
    let g := grantTime s.vtc B cb
    ({ vtc := g.1, outstanding := true, granted := s.granted + B }, g.2)
  | Op.expiry =>
    let g := onVirtualTimeBudgetExpired s.vtc
    ({ vtc := g.1, outstanding := decide (g.1.remainingBudget_ ≠ 0),
       granted := s.granted }, g.2)
  | Op.capture options =>
    let g := captureScreenshot s.vtc options
    ({ vtc := g.1, outstanding := s.outstanding, granted := s.granted }, g.2)
  | Op.stop =>
    ({ vtc := stopVirtualTimeGracefully s.vtc,
       outstanding := s.outstanding, granted := s.granted }, [])

/-- Run a list of operations, concatenating the protocol traces. -/
def runOps (s : Session κ) : List (Op κ) → Session κ × List (PEvent κ)
  | [] => (s, [])
  | op :: rest =>
    let step := applyOp s op
    let next := runOps step.1 rest
    (next.1, step.2 ++ next.2)

/-- Well-sequencing of one operation: a new grant or a stop happens only when
no budget is outstanding (the usage contract of the class: callers wait for
`onExpired` before granting again), budgets are nonnegative, and the protocol
fires an expiry only for an outstanding chunk. -/
def opOK (s : Session κ) : Op κ → Bool
  | Op.grant B _ => decide (s.vtc.remainingBudget_ = 0) && decide (0 ≤ B)
  | Op.expiry => s.outstanding
  | Op.capture _ => true
  | Op.stop => decide (s.vtc.remainingBudget_ = 0)

/-- Well-sequencing of a whole operation list from a given session. -/
def wfOps (s : Session κ) : List (Op κ) → Bool
  | [] => true
  | op :: rest => opOK s op && wfOps (applyOp s op).1 rest

/-- The session right after `new VirtualTimeController(target)` in `run()`:
default interval and starvation count, nothing granted. -/
def initialSession (κ : Type) : Session κ :=
  { vtc := mkController κ none none, outstanding := false, granted := 0 }

/-- Invariant tying the controller bookkeeping to the session ghost fields. -/
structure SessionInv (s : Session κ) : Prop where
  hA : 0 < s.vtc.animationFrameInterval_
  hr : 0 ≤ s.vtc.remainingBudget_
  hsum : s.vtc.totalElapsedTime_ + s.vtc.remainingBudget_ = s.granted
  hlgc : s.outstanding = true →
    s.vtc.lastGrantedChunk_ = chunkOf s.vtc.animationFrameInterval_
      s.vtc.totalElapsedTime_ s.vtc.remainingBudget_
  hidle : s.outstanding = false → s.vtc.remainingBudget_ = 0

theorem initialSession_inv (κ : Type) : SessionInv (initialSession κ) := by
  refine ⟨?_, ?_, ?_, ?_, ?_⟩
  · norm_num [initialSession, mkController, jsOrDefaultQ]
  · norm_num [initialSession, mkController]
  · norm_num [initialSession, mkController]
  · intro h
    simp [initialSession] at h
  · intro _
    norm_num [initialSession, mkController]

theorem applyOp_grant_fst (s : Session κ) (B : ℚ) (cb : κ) :
    (applyOp s (Op.grant B cb)).1 =
      ⟨{ s.vtc with
          remainingBudget_ := B,
          lastGrantedChunk_ :=
            chunkOf s.vtc.animationFrameInterval_ s.vtc.totalElapsedTime_ B,
          onInstalled_ := none,
          onExpired_ := some cb },
        true, s.granted + B⟩ := rfl

theorem applyOp_expiry_fst (s : Session κ) :
    (applyOp s Op.expiry).1 =
      ⟨(onVirtualTimeBudgetExpired s.vtc).1,
        decide ((onVirtualTimeBudgetExpired s.vtc).1.remainingBudget_ ≠ 0),
        s.granted⟩ := rfl

theorem applyOp_capture_fst (s : Session κ) (options : ScreenshotOptions) :
    (applyOp s (Op.capture options)).1 =
      ⟨{ s.vtc with virtualTimeBase_ := s.vtc.virtualTimeBase_ + 1 / 100 },
        s.outstanding, s.granted⟩ := rfl

theorem applyOp_stop_fst (s : Session κ) :
    (applyOp s Op.stop).1 =
      ⟨stopVirtualTimeGracefully s.vtc, s.outstanding, s.granted⟩ := rfl

/-- One well-sequenced operation preserves the session invariant, never
decreases `totalElapsedTime_`, `virtualTimeBase_` or the cumulative granted
budget, and never changes the animation-frame interval. -/
theorem applyOp_step (s : Session κ) (op : Op κ) (hinv : SessionInv s)
    (hok : opOK s op = true) :
    SessionInv (applyOp s op).1 ∧
    s.vtc.totalElapsedTime_ ≤ (applyOp s op).1.vtc.totalElapsedTime_ ∧
    s.vtc.virtualTimeBase_ ≤ (applyOp s op).1.vtc.virtualTimeBase_ ∧
    s.granted ≤ (applyOp s op).1.granted ∧
    (applyOp s op).1.vtc.animationFrameInterval_ = s.vtc.animationFrameInterval_ := by
  obtain ⟨hA, hr, hsum, hlgc, hidle⟩ := hinv
  cases op with
  | grant B cb =>
    simp only [opOK, Bool.and_eq_true, decide_eq_true_eq] at hok
    obtain ⟨hr0, hB⟩ := hok
    rw [applyOp_grant_fst]
    refine ⟨⟨hA, hB, ?_, ?_, ?_⟩, le_refl _, le_refl _, ?_, rfl⟩
    · show s.vtc.totalElapsedTime_ + B = s.granted + B
      have he : s.vtc.totalElapsedTime_ = s.granted := by linarith
      linarith
    · intro _
      rfl
    · intro h
      exact Bool.noConfusion h
    · show s.granted ≤ s.granted + B
      linarith
  | expiry =>
    have houts : s.outstanding = true := hok
    have hlgcv := hlgc houts
    by_cases hterm : s.vtc.remainingBudget_ - s.vtc.lastGrantedChunk_ = 0
    · obtain ⟨hst, _⟩ := onExpired_terminal s.vtc hterm
      have h0lgc : 0 ≤ s.vtc.lastGrantedChunk_ := by
        rw [hlgcv]
        exact chunkOf_nonneg hA _ hr
      refine ⟨⟨?_, ?_, ?_, ?_, ?_⟩, ?_, ?_, ?_, ?_⟩ <;>
        rw [applyOp_expiry_fst, hst]
      · exact hA
      · show 0 ≤ s.vtc.remainingBudget_ - s.vtc.lastGrantedChunk_
        linarith [hterm.ge, hterm.le]
      · show s.vtc.totalElapsedTime_ + s.vtc.lastGrantedChunk_ +
          (s.vtc.remainingBudget_ - s.vtc.lastGrantedChunk_) = s.granted
        linarith
      · intro h
        rw [decide_eq_true_eq] at h
        exact absurd hterm h
      · intro _
        exact hterm
      · show s.vtc.totalElapsedTime_ ≤
          s.vtc.totalElapsedTime_ + s.vtc.lastGrantedChunk_
        linarith
    · obtain ⟨hst, _⟩ := onExpired_nonterminal s.vtc hterm
      have h0lgc : 0 ≤ s.vtc.lastGrantedChunk_ := by
        rw [hlgcv]
        exact chunkOf_nonneg hA _ hr
      have hrem : 0 ≤ s.vtc.remainingBudget_ - s.vtc.lastGrantedChunk_ := by
        rw [hlgcv]
        have := chunkOf_le_right s.vtc.animationFrameInterval_
          s.vtc.totalElapsedTime_ s.vtc.remainingBudget_
        linarith
      refine ⟨⟨?_, ?_, ?_, ?_, ?_⟩, ?_, ?_, ?_, ?_⟩ <;>
        rw [applyOp_expiry_fst, hst]
      · exact hA
      · exact hrem
      · show s.vtc.totalElapsedTime_ + s.vtc.lastGrantedChunk_ +
          (s.vtc.remainingBudget_ - s.vtc.lastGrantedChunk_) = s.granted
        linarith
      · intro _
        rfl
      · intro h
        rw [decide_eq_false_iff_not] at h
        exact absurd (not_not.mp h) hterm
      · show s.vtc.totalElapsedTime_ ≤
          s.vtc.totalElapsedTime_ + s.vtc.lastGrantedChunk_
        linarith
  | capture options =>
    rw [applyOp_capture_fst]
    refine ⟨⟨hA, hr, hsum, ?_, ?_⟩, le_refl _, ?_, le_refl _, rfl⟩
    · intro h
      exact hlgc h
    · intro h
      exact hidle h
    · show s.vtc.virtualTimeBase_ ≤ s.vtc.virtualTimeBase_ + 1 / 100
      linarith
  | stop =>
    simp only [opOK, decide_eq_true_eq] at hok
    have hstop : stopVirtualTimeGracefully s.vtc = s.vtc := by
      rw [stopVirtualTimeGracefully, if_pos hok]
    rw [applyOp_stop_fst, hstop]
    exact ⟨⟨hA, hr, hsum, hlgc, hidle⟩, le_refl _, le_refl _, le_refl _, rfl⟩

theorem applyOp_grant_snd (s : Session κ) (B : ℚ) (cb : κ) :
    (applyOp s (Op.grant B cb)).2 = (grantTime s.vtc B cb).2 := rfl

theorem applyOp_expiry_snd (s : Session κ) :
    (applyOp s Op.expiry).2 = (onVirtualTimeBudgetExpired s.vtc).2 := rfl

theorem applyOp_capture_snd (s : Session κ) (options : ScreenshotOptions) :
    (applyOp s (Op.capture options)).2 =
      [PEvent.beginFrame (currentFrameTime s.vtc) false (some options)] := rfl

theorem applyOp_stop_snd (s : Session κ) : (applyOp s Op.stop).2 = [] := rfl

theorem runOps_nil (s : Session κ) : runOps s [] = (s, []) := rfl

theorem runOps_cons (s : Session κ) (op : Op κ) (rest : List (Op κ)) :
    runOps s (op :: rest) =
      ((runOps (applyOp s op).1 rest).1,
        (applyOp s op).2 ++ (runOps (applyOp s op).1 rest).2) := rfl

theorem wfOps_cons (s : Session κ) (op : Op κ) (rest : List (Op κ)) :
    wfOps s (op :: rest) = (opOK s op && wfOps (applyOp s op).1 rest) := rfl

theorem runOps_append (l₁ l₂ : List (Op κ)) :
    ∀ s : Session κ,
      runOps s (l₁ ++ l₂) =
        ((runOps (runOps s l₁).1 l₂).1,
          (runOps s l₁).2 ++ (runOps (runOps s l₁).1 l₂).2) := by
  induction l₁ with
  | nil =>
    intro s
    simp [runOps]
  | cons op rest ih =>
    intro s
    rw [List.cons_append, runOps_cons, ih (applyOp s op).1, runOps_cons s op rest]
    simp [List.append_assoc]

theorem wfOps_append (l₁ l₂ : List (Op κ)) :
    ∀ s : Session κ,
      wfOps s (l₁ ++ l₂) = (wfOps s l₁ && wfOps (runOps s l₁).1 l₂) := by
  induction l₁ with
  | nil =>
    intro s
    simp [wfOps, runOps]
  | cons op rest ih =>
    intro s
    rw [List.cons_append, wfOps_cons, ih (applyOp s op).1, wfOps_cons s op rest,
      runOps_cons s op rest]
    simp [Bool.and_assoc]

/-- A well-sequenced operation list preserves the invariant and never
decreases elapsed time, the time base, or the cumulative granted budget. -/
theorem runOps_mono (l : List (Op κ)) :
    ∀ s : Session κ, SessionInv s → wfOps s l = true →
      SessionInv (runOps s l).1 ∧
      s.vtc.totalElapsedTime_ ≤ (runOps s l).1.vtc.totalElapsedTime_ ∧
      s.vtc.virtualTimeBase_ ≤ (runOps s l).1.vtc.virtualTimeBase_ ∧
      s.granted ≤ (runOps s l).1.granted := by
  induction l with
  | nil =>
    intro s hinv _
    exact ⟨hinv, le_refl _, le_refl _, le_refl _⟩
  | cons op rest ih =>
    intro s hinv hwf
    rw [wfOps_cons, Bool.and_eq_true] at hwf
    obtain ⟨hok, hwfrest⟩ := hwf
    obtain ⟨hinv1, he1, hb1, hg1, _⟩ := applyOp_step s op hinv hok
    obtain ⟨hinv2, he2, hb2, hg2⟩ := ih (applyOp s op).1 hinv1 hwfrest
    rw [runOps_cons]
    exact ⟨hinv2, le_trans he1 he2, le_trans hb1 hb2, le_trans hg1 hg2⟩

theorem countExpired_eq_zero_not_mem (cb : κ) (t : ℚ) :
    ∀ l : List (PEvent κ), countExpired l = 0 → PEvent.callExpired cb t ∉ l := by
  intro l
  induction l with
  | nil =>
    intro _
    simp
  | cons e rest ih =>
    intro h hmem
    rw [List.mem_cons] at hmem
    cases e with
    | callExpired cb2 t2 =>
      simp only [countExpired] at h
      omega
    | setVirtualTimePolicyPause ivt =>
      simp only [countExpired] at h
      rcases hmem with he | hmem
      · exact PEvent.noConfusion he
      · exact ih h hmem
    | setVirtualTimePolicy b mx wn =>
      simp only [countExpired] at h
      rcases hmem with he | hmem
      · exact PEvent.noConfusion he
      · exact ih h hmem
    | beginFrame ftt ndu shot =>
      simp only [countExpired] at h
      rcases hmem with he | hmem
      · exact PEvent.noConfusion he
      · exact ih h hmem
    | callInstalled cb2 b2 =>
      simp only [countExpired] at h
      rcases hmem with he | hmem
      · exact PEvent.noConfusion he
      · exact ih h hmem

theorem issueAnimationFrame_countExpired (s : VirtualTimeController κ) :
    countExpired (issueAnimationFrameAndScheduleNextChunk_ s).2 = 0 := by
  unfold issueAnimationFrameAndScheduleNextChunk_ scheduleNextChunk_
  split <;> cases honI : s.onInstalled_ <;>
    simp [countExpired, countExpired_append]

theorem onExpired_nonterminal_countExpired (s : VirtualTimeController κ)
    (h : ¬(s.remainingBudget_ - s.lastGrantedChunk_ = 0)) :
    countExpired (onVirtualTimeBudgetExpired s).2 = 0 := by
  unfold onVirtualTimeBudgetExpired
  simp only [if_neg h]
  exact issueAnimationFrame_countExpired _

theorem onExpired_terminal_trace (s : VirtualTimeController κ)
    (h : s.remainingBudget_ - s.lastGrantedChunk_ = 0) :
    (onVirtualTimeBudgetExpired s).2 = match s.onExpired_ with
      | some cb =>
        [PEvent.callExpired cb (s.totalElapsedTime_ + s.lastGrantedChunk_)]
      | none => [] := by
  unfold onVirtualTimeBudgetExpired
  simp only [if_pos h]
  cases honE : s.onExpired_ <;> simp [honE]

/-- C2 (amended): in any well-sequenced session — each `grantTime` and each
`stopVirtualTimeGracefully` call made only while no budget is outstanding,
granted budgets nonnegative, and expiry events delivered only for outstanding
chunks — after any prefix of operations the controller satisfies
`elapsedTime + remainingBudget = cumulative granted budget`, `elapsedTime` is
non-decreasing across operations, and whenever an expiry fires the stored
`onExpired` callback, the value passed to it and the elapsed time immediately
afterwards both equal the cumulative granted budget. The unrestricted claim
is refuted by `session_budget_accounting_counterexample`. -/
theorem session_budget_accounting (ops : List (Op κ))
    (hwf : wfOps (initialSession κ) ops = true) :
    ((runOps (initialSession κ) ops).1.vtc.totalElapsedTime_ +
        (runOps (initialSession κ) ops).1.vtc.remainingBudget_
      = (runOps (initialSession κ) ops).1.granted) ∧
    (∀ l₁ l₂ : List (Op κ), ops = l₁ ++ l₂ →
      (runOps (initialSession κ) l₁).1.vtc.totalElapsedTime_ ≤
        (runOps (initialSession κ) ops).1.vtc.totalElapsedTime_) ∧
    (∀ (l₁ l₂ : List (Op κ)) (cb : κ) (t : ℚ), ops = l₁ ++ Op.expiry :: l₂ →
      PEvent.callExpired cb t ∈
        (applyOp (runOps (initialSession κ) l₁).1 Op.expiry).2 →
      t = (runOps (initialSession κ) l₁).1.granted ∧
      (applyOp (runOps (initialSession κ) l₁).1 Op.expiry).1.vtc.totalElapsedTime_
        = (runOps (initialSession κ) l₁).1.granted) := by
  have hinv0 := initialSession_inv κ
  refine ⟨?_, ?_, ?_⟩
  · exact (runOps_mono ops _ hinv0 hwf).1.hsum
  · intro l₁ l₂ hsplit
    subst hsplit
    rw [wfOps_append, Bool.and_eq_true] at hwf
    obtain ⟨hwf1, hwf2⟩ := hwf
    have hinv1 := (runOps_mono l₁ _ hinv0 hwf1).1
    have hmono2 := (runOps_mono l₂ _ hinv1 hwf2).2.1
    rw [runOps_append l₁ l₂ (initialSession κ)]
    exact hmono2
  · intro l₁ l₂ cb t hsplit hmem
    subst hsplit
    rw [wfOps_append, Bool.and_eq_true] at hwf
    obtain ⟨hwf1, hwf2⟩ := hwf
    rw [wfOps_cons, Bool.and_eq_true] at hwf2
    obtain ⟨hok, -⟩ := hwf2
    obtain ⟨hA1, hr1, hsum1, hlgc1, hidle1⟩ := (runOps_mono l₁ _ hinv0 hwf1).1
    have houts : (runOps (initialSession κ) l₁).1.outstanding = true := hok
    have hlgcv := hlgc1 houts
    by_cases hterm : (runOps (initialSession κ) l₁).1.vtc.remainingBudget_ -
        (runOps (initialSession κ) l₁).1.vtc.lastGrantedChunk_ = 0
    · rw [applyOp_expiry_snd, onExpired_terminal_trace _ hterm] at hmem
      cases honE : (runOps (initialSession κ) l₁).1.vtc.onExpired_ with
      | none =>
        rw [honE] at hmem
        simp at hmem
      | some cb0 =>
        rw [honE] at hmem
        rw [List.mem_singleton, PEvent.callExpired.injEq] at hmem
        obtain ⟨-, ht⟩ := hmem
        constructor
        · rw [ht]
          linarith
        · obtain ⟨hst, -⟩ :=
            onExpired_terminal (runOps (initialSession κ) l₁).1.vtc hterm
          rw [applyOp_expiry_fst, hst]
          show (runOps (initialSession κ) l₁).1.vtc.totalElapsedTime_ +
              (runOps (initialSession κ) l₁).1.vtc.lastGrantedChunk_
            = (runOps (initialSession κ) l₁).1.granted
          linarith
    · exfalso
      rw [applyOp_expiry_snd] at hmem
      exact countExpired_eq_zero_not_mem cb t _
        (onExpired_nonterminal_countExpired _ hterm) hmem

/-- Counterexample to C2 as stated: the claim quantifies over sequences that
include `stopVirtualTimeGracefully`; calling `grantTime(5, cb)` and then
`stopVirtualTimeGracefully()` (with the chunk still in flight) leaves
`elapsedTime + remainingBudget = 0` while the cumulative granted budget is
`5`. -/
theorem session_budget_accounting_counterexample :
    (runOps (initialSession ℕ) [Op.grant 5 0, Op.stop]).1.vtc.totalElapsedTime_ +
      (runOps (initialSession ℕ) [Op.grant 5 0, Op.stop]).1.vtc.remainingBudget_
      = 0 ∧
    (runOps (initialSession ℕ) [Op.grant 5 0, Op.stop]).1.granted = 5 ∧
    (0 : ℚ) ≠ 5 := by
  have h1 : (runOps (initialSession ℕ) [Op.grant 5 0, Op.stop]).1
      = (applyOp (applyOp (initialSession ℕ) (Op.grant 5 0)).1 Op.stop).1 := rfl
  have hg := applyOp_grant_fst (initialSession ℕ) 5 0
  refine ⟨?_, ?_, by norm_num⟩
  · rw [h1, applyOp_stop_fst, hg]
    rw [stopVirtualTimeGracefully, if_neg (by norm_num)]
    show (initialSession ℕ).vtc.totalElapsedTime_ + 0 = 0
    norm_num [initialSession, mkController]
  · rw [h1, applyOp_stop_fst, hg]
    show (initialSession ℕ).granted + 5 = 5
    norm_num [initialSession]

/-- Witness for the amended C2 at a concrete input: a single capture is
well-sequenced and keeps the accounting equation. -/
theorem session_budget_accounting_witness :
    wfOps (initialSession ℕ)
      [Op.capture ⟨ScreenshotFormat.jpeg, some 85⟩] = true ∧
    (runOps (initialSession ℕ)
        [Op.capture ⟨ScreenshotFormat.jpeg, some 85⟩]).1.vtc.totalElapsedTime_ +
      (runOps (initialSession ℕ)
        [Op.capture ⟨ScreenshotFormat.jpeg, some 85⟩]).1.vtc.remainingBudget_
      = (runOps (initialSession ℕ)
        [Op.capture ⟨ScreenshotFormat.jpeg, some 85⟩]).1.granted :=
  ⟨by rfl, (session_budget_accounting
    [Op.capture ⟨ScreenshotFormat.jpeg, some 85⟩] (by rfl)).1⟩

theorem stop_midflight_state :
    (runOps (initialSession ℕ) [Op.grant 5 0, Op.stop]).1.vtc =
      { animationFrameInterval_ := 16, maxTaskStarvationCount_ := 100000,
        virtualTimeBase_ := 0, remainingBudget_ := 0, lastGrantedChunk_ := 5,
        totalElapsedTime_ := 0, onInstalled_ := none, onExpired_ := some 0 } := by
  have h1 : (runOps (initialSession ℕ) [Op.grant 5 0, Op.stop]).1
      = (applyOp (applyOp (initialSession ℕ) (Op.grant 5 0)).1 Op.stop).1 := rfl
  rw [h1, applyOp_stop_fst, applyOp_grant_fst]
  show ({ (initialSession ℕ).vtc with
      remainingBudget_ := 5,
      lastGrantedChunk_ := chunkOf (initialSession ℕ).vtc.animationFrameInterval_
        (initialSession ℕ).vtc.totalElapsedTime_ 5,
      onInstalled_ := none,
      onExpired_ := some 0 } : VirtualTimeController ℕ).stopVirtualTimeGracefully
    = _
  rw [stopVirtualTimeGracefully, if_neg (by norm_num)]
  norm_num [initialSession, mkController, jsOrDefaultQ, jsOrDefaultN,
    chunkOf, jsMod, VirtualTimeController.mk.injEq]

/-- C3 evaluated at the failing input (code bug): after `grantTime(5, cb)`
and a mid-flight `stopVirtualTimeGracefully()`, delivering the in-flight
chunk's `virtualTimeBudgetExpired` event drives `remainingBudget_` to `-5`
(not zero), fires no `onExpired` callback, and submits a further
`setVirtualTimePolicy` request with negative budget `-5` — contradicting the
documented contract that no further chunk is scheduled and the expiry fires
the callback. -/
theorem stop_midflight_divergence :
    (applyOp (runOps (initialSession ℕ) [Op.grant 5 0, Op.stop]).1
        Op.expiry).1.vtc.remainingBudget_ = -5 ∧
    (applyOp (runOps (initialSession ℕ) [Op.grant 5 0, Op.stop]).1
        Op.expiry).1.vtc.totalElapsedTime_ = 5 ∧
    countExpired (applyOp (runOps (initialSession ℕ) [Op.grant 5 0, Op.stop]).1
        Op.expiry).2 = 0 ∧
    chunkBudgets (applyOp (runOps (initialSession ℕ) [Op.grant 5 0, Op.stop]).1
        Op.expiry).2 = [-5] := by
  have hterm : ¬((runOps (initialSession ℕ) [Op.grant 5 0, Op.stop]).1.vtc.remainingBudget_ -
      (runOps (initialSession ℕ) [Op.grant 5 0, Op.stop]).1.vtc.lastGrantedChunk_ = 0) := by
    rw [stop_midflight_state]
    norm_num
  obtain ⟨hst, hcb⟩ :=
    onExpired_nonterminal (runOps (initialSession ℕ) [Op.grant 5 0, Op.stop]).1.vtc hterm
  refine ⟨?_, ?_, ?_, ?_⟩
  · rw [applyOp_expiry_fst, hst]
    show (runOps (initialSession ℕ) [Op.grant 5 0, Op.stop]).1.vtc.remainingBudget_ -
        (runOps (initialSession ℕ) [Op.grant 5 0, Op.stop]).1.vtc.lastGrantedChunk_ = -5
    rw [stop_midflight_state]
    norm_num
  · rw [applyOp_expiry_fst, hst]
    show (runOps (initialSession ℕ) [Op.grant 5 0, Op.stop]).1.vtc.totalElapsedTime_ +
        (runOps (initialSession ℕ) [Op.grant 5 0, Op.stop]).1.vtc.lastGrantedChunk_ = 5
    rw [stop_midflight_state]
    norm_num
  · rw [applyOp_expiry_snd]
    exact onExpired_nonterminal_countExpired _ hterm
  · rw [applyOp_expiry_snd, hcb, stop_midflight_state]
    norm_num [chunkOf, jsMod]

/-- C4: in a well-sequenced session every `captureScreenshot` call presents
exactly `currentFrameTime` (timeBase + elapsedTime) to the protocol's render
request, and of two captures the later presents a strictly greater frame
timestamp than the earlier — even when no virtual time is granted between
them. -/
theorem captures_strictly_increasing (ops l₁ l₂ l₃ : List (Op κ))
    (o₁ o₂ : ScreenshotOptions)
    (hwf : wfOps (initialSession κ) ops = true)
    (hsplit : ops = l₁ ++ Op.capture o₁ :: l₂ ++ Op.capture o₂ :: l₃) :
    (applyOp (runOps (initialSession κ) l₁).1 (Op.capture o₁)).2 =
      [PEvent.beginFrame
        (currentFrameTime (runOps (initialSession κ) l₁).1.vtc) false
        (some o₁)] ∧
    (applyOp (runOps (initialSession κ) (l₁ ++ Op.capture o₁ :: l₂)).1
        (Op.capture o₂)).2 =
      [PEvent.beginFrame
        (currentFrameTime
          (runOps (initialSession κ) (l₁ ++ Op.capture o₁ :: l₂)).1.vtc)
        false (some o₂)] ∧
    currentFrameTime (runOps (initialSession κ) l₁).1.vtc <
      currentFrameTime
        (runOps (initialSession κ) (l₁ ++ Op.capture o₁ :: l₂)).1.vtc := by
  subst hsplit
  rw [wfOps_append, Bool.and_eq_true] at hwf
  obtain ⟨hwf1, -⟩ := hwf
  rw [wfOps_append, Bool.and_eq_true] at hwf1
  obtain ⟨hwf1a, hwf1b⟩ := hwf1
  rw [wfOps_cons, Bool.and_eq_true] at hwf1b
  obtain ⟨-, hwf4⟩ := hwf1b
  have hinv1 := (runOps_mono l₁ _ (initialSession_inv κ) hwf1a).1
  have hok : opOK (runOps (initialSession κ) l₁).1 (Op.capture o₁) = true := rfl
  obtain ⟨hinvc, -, -, -, -⟩ :=
    applyOp_step (runOps (initialSession κ) l₁).1 (Op.capture o₁) hinv1 hok
  obtain ⟨-, hemono, hbmono, -⟩ := runOps_mono l₂ _ hinvc hwf4
  refine ⟨rfl, rfl, ?_⟩
  rw [runOps_append, runOps_cons]
  have hcapft : currentFrameTime
      (applyOp (runOps (initialSession κ) l₁).1 (Op.capture o₁)).1.vtc
      = currentFrameTime (runOps (initialSession κ) l₁).1.vtc + 1 / 100 := by
    rw [applyOp_capture_fst]
    show (runOps (initialSession κ) l₁).1.vtc.virtualTimeBase_ + 1 / 100 +
        (runOps (initialSession κ) l₁).1.vtc.totalElapsedTime_
      = (runOps (initialSession κ) l₁).1.vtc.virtualTimeBase_ +
        (runOps (initialSession κ) l₁).1.vtc.totalElapsedTime_ + 1 / 100
    ring
  have hfinal : currentFrameTime
      (applyOp (runOps (initialSession κ) l₁).1 (Op.capture o₁)).1.vtc ≤
      currentFrameTime
        (runOps (applyOp (runOps (initialSession κ) l₁).1 (Op.capture o₁)).1
          l₂).1.vtc := by
    unfold currentFrameTime
    linarith
  rw [hcapft] at hfinal
  show currentFrameTime (runOps (initialSession κ) l₁).1.vtc <
    currentFrameTime
      (runOps (applyOp (runOps (initialSession κ) l₁).1 (Op.capture o₁)).1
        l₂).1.vtc
  linarith

/-- Witness for C4 at a concrete input: two back-to-back captures with no
grant in between still yield strictly increasing frame timestamps. -/
theorem captures_strictly_increasing_witness :
    wfOps (initialSession ℕ)
      [Op.capture ⟨ScreenshotFormat.jpeg, some 85⟩,
        Op.capture ⟨ScreenshotFormat.png, none⟩] = true ∧
    currentFrameTime (runOps (initialSession ℕ) ([] : List (Op ℕ))).1.vtc <
      currentFrameTime
        (runOps (initialSession ℕ)
          ([] ++ Op.capture ⟨ScreenshotFormat.jpeg, some 85⟩ :: [])).1.vtc :=
  ⟨by rfl,
    (captures_strictly_increasing
      [Op.capture ⟨ScreenshotFormat.jpeg, some 85⟩,
        Op.capture ⟨ScreenshotFormat.png, none⟩]
      [] [] [] ⟨ScreenshotFormat.jpeg, some 85⟩ ⟨ScreenshotFormat.png, none⟩
      (by rfl) rfl).2.2⟩

theorem issueAnimationFrame_countInstalled (s : VirtualTimeController κ)
    (h : s.onInstalled_ = none) :
    countInstalled (issueAnimationFrameAndScheduleNextChunk_ s).2 = 0 := by
  unfold issueAnimationFrameAndScheduleNextChunk_ scheduleNextChunk_
  split <;> simp [countInstalled, countInstalled_append, h]

theorem onExpired_countInstalled (s : VirtualTimeController κ)
    (h : s.onInstalled_ = none) :
    countInstalled (onVirtualTimeBudgetExpired s).2 = 0 ∧
    (onVirtualTimeBudgetExpired s).1.onInstalled_ = none := by
  by_cases hterm : s.remainingBudget_ - s.lastGrantedChunk_ = 0
  · constructor
    · rw [onExpired_terminal_trace s hterm]
      cases honE : s.onExpired_ <;> simp [countInstalled]
    · rw [(onExpired_terminal s hterm).1]
      exact h
  · constructor
    · have hne : ¬((onVirtualTimeBudgetExpired s).1.remainingBudget_ = 0) := by
        rw [(onExpired_nonterminal s hterm).1]
        exact hterm
      unfold onVirtualTimeBudgetExpired
      simp only [if_neg hterm]
      exact issueAnimationFrame_countInstalled _ h
    · rw [(onExpired_nonterminal s hterm).1]

theorem applyOp_countInstalled (s : Session κ) (op : Op κ)
    (h : s.vtc.onInstalled_ = none) :
    countInstalled (applyOp s op).2 = 0 ∧
    (applyOp s op).1.vtc.onInstalled_ = none := by
  cases op with
  | grant B cb =>
    constructor
    · rw [applyOp_grant_snd]
      exact issueAnimationFrame_countInstalled _ h
    · rw [applyOp_grant_fst]
  | expiry =>
    obtain ⟨h1, h2⟩ := onExpired_countInstalled s.vtc h
    constructor
    · rw [applyOp_expiry_snd]
      exact h1
    · rw [applyOp_expiry_fst]
      exact h2
  | capture options =>
    constructor
    · rw [applyOp_capture_snd]
      rfl
    · rw [applyOp_capture_fst]
      exact h
  | stop =>
    constructor
    · rw [applyOp_stop_snd]
      rfl
    · rw [applyOp_stop_fst]
      show (stopVirtualTimeGracefully s.vtc).onInstalled_ = none
      rw [stopVirtualTimeGracefully]
      split
      · exact h
      · exact h

theorem runOps_countInstalled (l : List (Op κ)) :
    ∀ s : Session κ, s.vtc.onInstalled_ = none →
      countInstalled (runOps s l).2 = 0 ∧
      (runOps s l).1.vtc.onInstalled_ = none := by
  induction l with
  | nil =>
    intro s h
    exact ⟨rfl, h⟩
  | cons op rest ih =>
    intro s h
    obtain ⟨h1, h2⟩ := applyOp_countInstalled s op h
    obtain ⟨h3, h4⟩ := ih (applyOp s op).1 h2
    rw [runOps_cons]
    constructor
    · show countInstalled ((applyOp s op).2 ++ (runOps (applyOp s op).1 rest).2) = 0
      rw [countInstalled_append, h1, h3]
    · exact h4

/-- C6: `grantInitialTime` invokes `onInstalled` exactly once over the whole
session: the call's protocol trace is exactly the pause request, the initial
full `beginFrame`, the first chunk's time-budget policy request, and then —
synchronously, directly after that request — the `onInstalled` invocation;
the callback slot is then cleared, and no subsequent sequence of operations
ever invokes it again. -/
theorem onInstalled_fires_exactly_once (B ivt base : ℚ) (cbI cbE : κ) :
    (grantInitialTime (mkController κ none none) B ivt base cbI cbE).2 =
      [PEvent.setVirtualTimePolicyPause ivt,
        PEvent.beginFrame base false none,
        PEvent.setVirtualTimePolicy (min 16 B) 100000 true,
        PEvent.callInstalled cbI base] ∧
    countInstalled
      (grantInitialTime (mkController κ none none) B ivt base cbI cbE).2 = 1 ∧
    (grantInitialTime (mkController κ none none) B ivt base cbI cbE).1.onInstalled_
      = none ∧
    (∀ ops : List (Op κ),
      countInstalled (runOps
        ⟨(grantInitialTime (mkController κ none none) B ivt base cbI cbE).1,
          true, B⟩ ops).2 = 0) := by
  have htr : (grantInitialTime (mkController κ none none) B ivt base cbI cbE).2 =
      [PEvent.setVirtualTimePolicyPause ivt,
        PEvent.beginFrame base false none,
        PEvent.setVirtualTimePolicy (min 16 B) 100000 true,
        PEvent.callInstalled cbI base] := by
    unfold grantInitialTime grantTime issueAnimationFrameAndScheduleNextChunk_
      scheduleNextChunk_
    norm_num [mkController, jsOrDefaultQ, jsOrDefaultN, jsMod]
  refine ⟨htr, ?_, rfl, ?_⟩
  · rw [htr]
    rfl
  · intro ops
    exact (runOps_countInstalled ops _ rfl).1

/-- C7: `captureScreenshot` issues the render request carrying the pre-call
`currentFrameTime`, then advances `virtualTimeBase_` by exactly the fixed
positive epsilon 0.01 ms; `elapsedTime` and `remainingBudget_` are unchanged
by the call. -/
theorem capture_nudges_base_only (s : VirtualTimeController κ)
    (options : ScreenshotOptions) :
    (captureScreenshot s options).1.totalElapsedTime_ = s.totalElapsedTime_ ∧
    elapsedTime (captureScreenshot s options).1 = elapsedTime s ∧
    (captureScreenshot s options).1.remainingBudget_ = s.remainingBudget_ ∧
    (captureScreenshot s options).1.virtualTimeBase_
      = s.virtualTimeBase_ + 1 / 100 ∧
    (0 : ℚ) < 1 / 100 ∧
    (captureScreenshot s options).2 =
      [PEvent.beginFrame (currentFrameTime s) false (some options)] :=
  ⟨rfl, rfl, rfl, rfl, by norm_num, rfl⟩

/-- C9: calling `grantTime(B₂, cb₂)` while a previous grant still has
positive remaining budget unconditionally overwrites `remainingBudget_` with
`B₂` and the stored `onExpired_` callback with `cb₂`; the prior grant's
unconsumed budget and callback are silently dropped (no error, no queuing —
the state holds only the new values, and no `onExpired` fires), elapsed time
and time base are untouched, and the first submitted chunk is computed from
the new budget. -/
theorem grantTime_overwrites (s : VirtualTimeController κ) (B₂ : ℚ) (cb₂ : κ)
    (hprev : 0 < s.remainingBudget_) :
    (grantTime s B₂ cb₂).1.remainingBudget_ = B₂ ∧
    (grantTime s B₂ cb₂).1.onExpired_ = some cb₂ ∧
    (grantTime s B₂ cb₂).1.totalElapsedTime_ = s.totalElapsedTime_ ∧
    (grantTime s B₂ cb₂).1.virtualTimeBase_ = s.virtualTimeBase_ ∧
    chunkBudgets (grantTime s B₂ cb₂).2 =
      [chunkOf s.animationFrameInterval_ s.totalElapsedTime_ B₂] ∧
    countExpired (grantTime s B₂ cb₂).2 = 0 := by
  refine ⟨rfl, rfl, rfl, rfl, grantTime_chunkBudgets s B₂ cb₂, ?_⟩
  exact issueAnimationFrame_countExpired _

/-- Witness for C9 at a concrete input: a controller with 3 ms still
outstanding, regranted 9 ms with a new callback label. -/
theorem grantTime_overwrites_witness :
    (0 : ℚ) < (⟨16, 100000, 0, 3, 3, 0, none, some 7⟩ :
      VirtualTimeController ℕ).remainingBudget_ ∧
    (grantTime (⟨16, 100000, 0, 3, 3, 0, none, some 7⟩ :
      VirtualTimeController ℕ) 9 8).1.remainingBudget_ = 9 ∧
    (grantTime (⟨16, 100000, 0, 3, 3, 0, none, some 7⟩ :
      VirtualTimeController ℕ) 9 8).1.onExpired_ = some 8 :=
  ⟨by decide,
    (grantTime_overwrites (⟨16, 100000, 0, 3, 3, 0, none, some 7⟩ :
      VirtualTimeController ℕ) 9 8 (by decide)).1,
    (grantTime_overwrites (⟨16, 100000, 0, 3, 3, 0, none, some 7⟩ :
      VirtualTimeController ℕ) 9 8 (by decide)).2.1⟩

/-- JavaScript `str.padStart(targetLength, padChar)`: pad on the left up to
`targetLength`; a string already that long is returned unchanged. -/
def padStart (str : String) (targetLength : ℕ) (c : Char) : String :=
  String.mk (List.replicate (targetLength - str.length) c) ++ str

/-- The file extension the orchestrator picks:
`screenshotOptions.format === 'jpeg' ? 'jpg' : 'png'`. -/
def frameExtension (format : ScreenshotFormat) : String :=
  match format with
  | ScreenshotFormat.jpeg => "jpg"
  | ScreenshotFormat.png => "png"

/-- The frame filename the orchestrator writes:
`frame-${frameCounter.toString().padStart(7, '0')}.${ext}`. -/
def frameFilename (format : ScreenshotFormat) (frameCounter : ℕ) : String :=
  "frame-" ++ padStart (Nat.repr frameCounter) 7 '0' ++ "." ++
    frameExtension format

/-- The `timeExpired` capture loop of `run()`: capture a screenshot, record
its filename, and — after the post-increment comparison
`frameCounter++ < totalFramesToCapture` — either grant another frame interval
(whose expiry re-enters the loop with the incremented counter) or finish.
Returns the final session, the recorded filenames, and the protocol trace. -/
def captureLoop (options : ScreenshotOptions) (frameInterval : ℚ) (cb : κ)
    (fuel : ℕ) (s : Session κ) (frameCounter totalFramesToCapture : ℕ) :
    Session κ × List String × List (PEvent κ) :=
  let cap := applyOp s (Op.capture options)
  let fname := frameFilename options.format frameCounter
  if h : frameCounter < totalFramesToCapture then
    let g := grantRun cap.1.vtc frameInterval cb fuel
    let s2 : Session κ :=
      ⟨g.1, decide (g.1.remainingBudget_ ≠ 0), cap.1.granted + frameInterval⟩
    let rest := captureLoop options frameInterval cb fuel s2
      (frameCounter + 1) totalFramesToCapture
    (rest.1, fname :: rest.2.1, cap.2 ++ g.2 ++ rest.2.2)
  else
    (cap.1, [fname], cap.2)
termination_by totalFramesToCapture - frameCounter
decreasing_by omega

theorem issueAnimationFrame_countCaptures (s : VirtualTimeController κ) :
    countCaptures (issueAnimationFrameAndScheduleNextChunk_ s).2 = 0 := by
  unfold issueAnimationFrameAndScheduleNextChunk_ scheduleNextChunk_
  split <;> cases honI : s.onInstalled_ <;>
    simp [countCaptures, countCaptures_append]

theorem onExpired_countCaptures (s : VirtualTimeController κ) :
    countCaptures (onVirtualTimeBudgetExpired s).2 = 0 := by
  by_cases hterm : s.remainingBudget_ - s.lastGrantedChunk_ = 0
  · rw [onExpired_terminal_trace s hterm]
    cases honE : s.onExpired_ <;> simp [countCaptures]
  · unfold onVirtualTimeBudgetExpired
    simp only [if_neg hterm]
    exact issueAnimationFrame_countCaptures _

theorem runExpiries_countCaptures (n : ℕ) :
    ∀ s : VirtualTimeController κ, countCaptures (runExpiries n s).2 = 0 := by
  induction n with
  | zero =>
    intro s
    rfl
  | succ n ih =>
    intro s
    rw [runExpiries_succ]
    split
    · exact onExpired_countCaptures s
    · show countCaptures ((onVirtualTimeBudgetExpired s).2 ++
        (runExpiries n (onVirtualTimeBudgetExpired s).1).2) = 0
      rw [countCaptures_append, onExpired_countCaptures s, ih]

theorem grantRun_countCaptures (s : VirtualTimeController κ) (B : ℚ) (cb : κ)
    (fuel : ℕ) : countCaptures (grantRun s B cb fuel).2 = 0 := by
  rw [grantRun_snd, countCaptures_append]
  rw [show (grantTime s B cb).2 =
    (issueAnimationFrameAndScheduleNextChunk_
      { s with remainingBudget_ := B, onExpired_ := some cb }).2 from rfl]
  rw [issueAnimationFrame_countCaptures, runExpiries_countCaptures]

theorem countCaptures_capture_singleton (ftt : ℚ) (opts : ScreenshotOptions) :
    countCaptures ([PEvent.beginFrame ftt false (some opts)] : List (PEvent κ))
      = 1 := rfl

theorem range_map_shift {α : Type} (f : ℕ → α) (n c : ℕ) :
    (List.range (n + 1)).map (fun i => f (c + i))
      = f c :: (List.range n).map (fun i => f (c + 1 + i)) := by
  rw [List.range_succ_eq_map, List.map_cons, List.map_map, Nat.add_zero]
  congr 1
  apply List.map_congr_left
  intro i _
  show f (c + Nat.succ i) = f (c + 1 + i)
  congr 1
  omega

theorem captureLoop_names (options : ScreenshotOptions) (frameInterval : ℚ)
    (cb : κ) (fuel : ℕ) (k : ℕ) :
    ∀ (s : Session κ) (frameCounter : ℕ),
      (captureLoop options frameInterval cb fuel s frameCounter
          (frameCounter + k)).2.1
        = (List.range (k + 1)).map
            (fun i => frameFilename options.format (frameCounter + i)) ∧
      countCaptures (captureLoop options frameInterval cb fuel s frameCounter
          (frameCounter + k)).2.2
        = k + 1 := by
  induction k with
  | zero =>
    intro s fc
    rw [captureLoop, dif_neg (by omega)]
    constructor
    · rw [range_map_shift (frameFilename options.format) 0 fc]
      rfl
    · show countCaptures (applyOp s (Op.capture options)).2 = 1
      rw [applyOp_capture_snd]
      rfl
  | succ k ih =>
    intro s fc
    rw [captureLoop, dif_pos (by omega)]
    have halign : fc + (k + 1) = (fc + 1) + k := by omega
    obtain ⟨ihn, ihc⟩ := ih
      ⟨(grantRun (applyOp s (Op.capture options)).1.vtc frameInterval cb fuel).1,
        decide ((grantRun (applyOp s (Op.capture options)).1.vtc frameInterval cb
          fuel).1.remainingBudget_ ≠ 0),
        (applyOp s (Op.capture options)).1.granted + frameInterval⟩
      (fc + 1)
    rw [halign]
    constructor
    · show frameFilename options.format fc :: _ = _
      rw [ihn, range_map_shift (frameFilename options.format) (k + 1) fc]
    · show countCaptures ((applyOp s (Op.capture options)).2 ++
        (grantRun (applyOp s (Op.capture options)).1.vtc frameInterval cb
          fuel).2 ++ _) = k + 1 + 1
      rw [countCaptures_append, countCaptures_append, ihc,
        applyOp_capture_snd, grantRun_countCaptures,
        countCaptures_capture_singleton]
      omega

/-- C5 (amended to require at least one requested frame; for a request of 0
frames the code still captures once, see the counterexample): a run
requesting `total ≥ 1` frames performs exactly `total` screenshot captures
and records the filenames `frame-0000001.ext` … in order, the sequence
numbers forming the contiguous run `1..total` with the extension determined
by the configured format. -/
theorem capture_loop_frames (options : ScreenshotOptions) (frameInterval : ℚ)
    (cb : κ) (fuel : ℕ) (s : Session κ) (total : ℕ) (htotal : 1 ≤ total) :
    (captureLoop options frameInterval cb fuel s 1 total).2.1
      = (List.range total).map (fun i => frameFilename options.format (i + 1)) ∧
    (captureLoop options frameInterval cb fuel s 1 total).2.1.length = total ∧
    countCaptures (captureLoop options frameInterval cb fuel s 1 total).2.2
      = total := by
  obtain ⟨k, rfl⟩ : ∃ k, total = 1 + k := ⟨total - 1, by omega⟩
  obtain ⟨hnames, hcount⟩ := captureLoop_names options frameInterval cb fuel k s 1
  have hk1 : k + 1 = 1 + k := by omega
  refine ⟨?_, ?_, ?_⟩
  · rw [hnames, hk1]
    apply List.map_congr_left
    intro i _
    congr 1
    omega
  · rw [hnames]
    simp [hk1]
  · rw [hcount]
    omega

/-- C5 counterexample: a run that requests `totalFramesToCapture = 0` frames
still performs one capture and records `frame-0000001.jpg`, because the loop
body runs once before the post-increment comparison `1 < 0` fails. -/
theorem capture_loop_zero_frames_counterexample :
    (captureLoop ⟨ScreenshotFormat.jpeg, some 85⟩ 1000 0 0
        (initialSession ℕ) 1 0).2.1 = ["frame-0000001.jpg"] ∧
    countCaptures (captureLoop ⟨ScreenshotFormat.jpeg, some 85⟩ 1000 0 0
        (initialSession ℕ) 1 0).2.2 = 1 ∧
    (1 : ℕ) ≠ 0 := by
  refine ⟨?_, ?_, by norm_num⟩
  · rw [captureLoop, dif_neg (by omega)]
    rfl
  · rw [captureLoop, dif_neg (by omega)]
    show countCaptures (applyOp (initialSession ℕ)
      (Op.capture ⟨ScreenshotFormat.jpeg, some 85⟩)).2 = 1
    rw [applyOp_capture_snd]
    rfl

/-- Witness for the amended C5 at the spec's scenario: 3 requested frames
produce the files frame-0000001 … frame-0000003. -/
theorem capture_loop_frames_witness :
    (1 : ℕ) ≤ 3 ∧
    (captureLoop ⟨ScreenshotFormat.jpeg, some 85⟩ 1000 0 0
        (initialSession ℕ) 1 3).2.1
      = (List.range 3).map (fun i => frameFilename ScreenshotFormat.jpeg (i + 1)) :=
  ⟨by decide, (capture_loop_frames ⟨ScreenshotFormat.jpeg, some 85⟩ 1000 0 0
    (initialSession ℕ) 3 (by decide)).1⟩

/-- Outcome of the external ffmpeg encoding process. -/
inductive EncodeOutcome where
  | success
  | failure
deriving DecidableEq

/-- Whether `run()` deletes the frame artifact files, as a function of the
`--noVideo` flag, the `--keepFrames` flag, and the encoder outcome: with
encoding enabled, the ffmpeg `error` handler only logs (no deletion) while
the `end` handler deletes when `keepFrames` is false; with `--noVideo` the
files are deleted when `keepFrames` is false. -/
def framesDeleted (noVideo keepFrames : Bool) (outcome : EncodeOutcome) : Bool :=
  if noVideo then !keepFrames
  else
    match outcome with
    | EncodeOutcome.success => !keepFrames
    | EncodeOutcome.failure => false

/-- C8: when the encoder fails, the frame files are not deleted regardless of
the keep-frames flag; frames are deleted only when keep-frames is false and
either encoding succeeded or encoding was skipped entirely. -/
theorem encoder_failure_keeps_frames :
    (∀ keepFrames : Bool,
      framesDeleted false keepFrames EncodeOutcome.failure = false) ∧
    (∀ (noVideo keepFrames : Bool) (outcome : EncodeOutcome),
      framesDeleted noVideo keepFrames outcome = true →
        keepFrames = false ∧
          (noVideo = true ∨ outcome = EncodeOutcome.success)) := by
  constructor
  · intro keepFrames
    cases keepFrames <;> rfl
  · intro noVideo keepFrames outcome h
    cases noVideo <;> cases keepFrames <;> cases outcome <;>
      simp_all [framesDeleted]

/-- Witness for C8 at a concrete input: deletion does occur for a successful
encode without keep-frames, and the theorem's characterization applies. -/
theorem encoder_failure_keeps_frames_witness :
    framesDeleted false false EncodeOutcome.success = true ∧
    (false = false ∧
      (false = true ∨ EncodeOutcome.success = EncodeOutcome.success)) :=
  ⟨by decide,
    encoder_failure_keeps_frames.2 false false EncodeOutcome.success (by decide)⟩

end DeterministicScreenshots
